import Mathlib

/-!
qesyPgSql: the query model of `qesydb.go`.

A shallow embedding of the clause compiler, the reset step, the terminal
operations and the row decoder of `src/qesydb.go`, followed by the theorems
that settle the specification's claims against it.

Conventions of the embedding.

* A Go map is a list of key/value pairs. Where the source ranges over a map,
  the list order is the order in which that one traversal visits the entries
  (Go leaves this order unspecified, so every list order is a possible run).
  Where the source indexes a map (`value[v]`), the list is searched by key and
  a missing key yields the zero value.
* A value of type `interface{}` is a value of a small tagged union naming the
  dynamic types the source distinguishes.
* `ParamsIndex` is a Go `int`: increments wrap at 64 bits.
* A run-time panic (index out of range, failed type assertion) is `none`.
* `Debug` only prints and is left out; `Connect`, `Begin`, `Commit` and `Rollback`
  belong to the connection collaborator and are not embedded.
-/

namespace QesyPgSql

/-! ## Values and the model -/

/-- Dynamic values stored in `interface{}` slots (typed condition values, bound
parameters): a string, a `[]string`, an integer, or a value of any other type. -/
inductive Any where
  | str (s : String)
  | strs (l : List String)
  | int (i : Int)
  | other (tag : Nat)
  deriving DecidableEq, Repr

/-- The dynamic type of `Model.Cond`: nil, a raw string, `map[string]string`,
`map[string]interface{}`, or anything else. -/
inductive CondValue where
  | null
  | raw (s : String)
  | flat (kv : List (String × String))
  | typed (kv : List (String × Any))
  | other (tag : Nat)
  deriving DecidableEq, Repr

/-- The dynamic type of `Model.Limit`: nil, a `[2]int`, a `[]int`, or anything else. -/
inductive LimitValue where
  | null
  | pair (a b : Int)
  | slice (l : List Int)
  | other (tag : Nat)
  deriving DecidableEq, Repr

/-- The struct `Model`. `Tx` is `none` for a nil transaction handle and `some h`
for the transaction `h`; `Ctx` is an identifier of the execution context. The
field `Sort` is written `Sort_` (`Sort` is reserved). -/
structure Model where
  Cond : CondValue
  Insert : List (String × String)
  InsertArr : List (List (String × String))
  Update : List (String × String)
  Field : String
  Table : String
  Index : String
  Limit : LimitValue
  Sort_ : String
  GroupBy : String
  IsDeug : Int
  ParamsIndex : Int
  Tx : Option Nat
  Ctx : Nat
  Scan : List Any
  deriving DecidableEq, Repr

/-! ## Library functions used by the source -/

/-- Two's-complement wrap of a 64-bit Go `int`. -/
def wrapInt (x : Int) : Int :=
  (x + 9223372036854775808) % 18446744073709551616 - 9223372036854775808

/-- The statement `m.ParamsIndex++`. -/
def incr (p : Int) : Int := wrapInt (p + 1)

/-- The call `fmt.Sprintf("$%d", p)`. -/
def placeholder (p : Int) : String := "$" ++ toString p

/-- Substring search on character lists. -/
def containsChars : List Char → List Char → Bool
  | [], sub => sub.isEmpty
  | c :: cs, sub => sub.isPrefixOf (c :: cs) || containsChars cs sub

/-- The call `strings.Contains(s, sub)`. -/
def stringsContains (s sub : String) : Bool := containsChars s.data sub.data

/-- The call `strings.Join(parts, sep)`. -/
def stringsJoin (parts : List String) (sep : String) : String := sep.intercalate parts

/-- Indexing a `map[string]string`: the value stored under the key, or `""`. -/
def mapGet (row : List (String × String)) (k : String) : String :=
  (row.lookup k).getD ""

/-! ## The clause compiler -/

/-- What the loops of the clause builders carry: the bound values, the cursor and
the fragments collected so far. -/
structure Acc where
  Scan : List Any
  ParamsIndex : Int
  strArr : List String
  deriving DecidableEq, Repr

/-- The `if / else if / else` chain of `getSQLCond` that picks the fragment of a
key: `k placeholder` when the key contains `LIKE`, `>` or `<`, else `k=placeholder`. -/
def condFragment (k ph : String) : String :=
  if stringsContains k "LIKE" then k ++ " " ++ ph
  else if stringsContains k ">" || stringsContains k "<" then k ++ " " ++ ph
  else k ++ "=" ++ ph

/-- Body of the loop of `getSQLCond` over a `map[string]string` (lines 311-322). -/
def condFlatStep (st : Acc) (e : String × String) : Acc :=
  let scan := st.Scan ++ [Any.str e.2]
  let ph := placeholder st.ParamsIndex
  { Scan := scan, ParamsIndex := incr st.ParamsIndex, strArr := st.strArr ++ [condFragment e.1 ph] }

/-- Inner loop of the IN-list branch (lines 342-345): every element is appended to
`Scan`, and the placeholder computed before the loop is appended to `SqlIn`. -/
def condInStep (ph : String) (acc : List Any × List String) (sv : String) :
    List Any × List String :=
  (acc.1 ++ [Any.str sv], acc.2 ++ [ph])

/-- Body of the loop of `getSQLCond` over a `map[string]interface{}` (lines 324-350). -/
def condTypedStep (st : Acc) (e : String × Any) : Acc :=
  let ph := placeholder st.ParamsIndex
  match e.2 with
  | Any.str s =>
    { Scan := st.Scan ++ [Any.str s], ParamsIndex := incr st.ParamsIndex,
      strArr := st.strArr ++ [condFragment e.1 ph] }
  | Any.strs isStrArrTmp =>
    if isStrArrTmp.length = 0 then
      { Scan := st.Scan ++ [Any.str ""], ParamsIndex := incr st.ParamsIndex,
        strArr := st.strArr ++ [e.1 ++ "=" ++ ph] }
    else
      let r := isStrArrTmp.foldl (condInStep ph) (st.Scan, [])
      { Scan := r.1, ParamsIndex := incr st.ParamsIndex,
        strArr := st.strArr ++ [e.1 ++ " in (" ++ stringsJoin r.2 "," ++ ")"] }
  | _ => { st with ParamsIndex := incr st.ParamsIndex }

/-- The tail of `getSQLCond` (lines 352-355), with the model updated by the loop. -/
def condFinish (m : Model) (st : Acc) : String × Model :=
  let m1 := { m with Scan := st.Scan, ParamsIndex := st.ParamsIndex }
  if st.strArr.length = 0 then ("", m1) else (" WHERE " ++ stringsJoin st.strArr " && ", m1)

/-- The method `getSQLCond`: the WHERE clause and the model after the call. -/
def getSQLCond (m : Model) : String × Model :=
  match m.Cond with
  | CondValue.null => ("", m)
  | CondValue.raw str => if str = "" then (str, m) else (" WHERE " ++ str ++ " ", m)
  | CondValue.flat arr =>
    condFinish m (arr.foldl condFlatStep { Scan := m.Scan, ParamsIndex := m.ParamsIndex, strArr := [] })
  | CondValue.typed arr =>
    condFinish m (arr.foldl condTypedStep { Scan := m.Scan, ParamsIndex := m.ParamsIndex, strArr := [] })
  | CondValue.other _ =>
    condFinish m { Scan := m.Scan, ParamsIndex := m.ParamsIndex, strArr := [] }

/-- The method `getSQLField`. -/
def getSQLField (m : Model) : String :=
  if m.Field ≠ "" then m.Field else "*"

/-- The method `getSort`. -/
def getSort (m : Model) : String :=
  if m.Sort_ ≠ "" then " ORDER BY " ++ m.Sort_ ++ " " else ""

/-- The method `getGroupBy`. -/
def getGroupBy (m : Model) : String :=
  if m.GroupBy ≠ "" then " GROUP BY " ++ m.GroupBy ++ " " else ""

/-- Body of the loop of `getSQLUpdate` (lines 383-386). -/
def updateStep (st : Acc) (e : String × String) : Acc :=
  let ph := placeholder st.ParamsIndex
  { Scan := st.Scan ++ [Any.str e.2], ParamsIndex := incr st.ParamsIndex,
    strArr := st.strArr ++ ["\"" ++ e.1 ++ "\"=" ++ ph] }

/-- The method `getSQLUpdate`: the SET list and the model after the call. -/
def getSQLUpdate (m : Model) : String × Model :=
  let st := m.Update.foldl updateStep { Scan := m.Scan, ParamsIndex := m.ParamsIndex, strArr := [] }
  (stringsJoin st.strArr ",", { m with Scan := st.Scan, ParamsIndex := st.ParamsIndex })

/-- What the loop of `getSQLInsert` carries: bound values, cursor, `fieldArr`, `valueArr`. -/
structure InsertAcc where
  Scan : List Any
  ParamsIndex : Int
  fieldArr : List String
  valueArr : List String
  deriving DecidableEq, Repr

/-- Body of the loop of `getSQLInsert` (lines 394-398). -/
def insertStep (st : InsertAcc) (e : String × String) : InsertAcc :=
  let scan := st.Scan ++ [Any.str e.2]
  let fieldArr := st.fieldArr ++ [e.1]
  let ph := placeholder st.ParamsIndex
  { Scan := scan, ParamsIndex := incr st.ParamsIndex, fieldArr := fieldArr,
    valueArr := st.valueArr ++ [ph] }

/-- The method `getSQLInsert`: the column and value lists, and the model after the call. -/
def getSQLInsert (m : Model) : String × Model :=
  let st := m.Insert.foldl insertStep
    { Scan := m.Scan, ParamsIndex := m.ParamsIndex, fieldArr := [], valueArr := [] }
  ("(" ++ stringsJoin st.fieldArr "," ++ ") values (" ++ stringsJoin st.valueArr "," ++ ")",
    { m with Scan := st.Scan, ParamsIndex := st.ParamsIndex })

/-- Inner loop of `getSQLInsertArr` (lines 411-415) for the row `value` and the cursor `p`:
the row's entry for the column is appended to `Scan`, the placeholder of `p` to `valueArr`. -/
def insertArrCell (value : List (String × String)) (p : Int)
    (acc : List Any × List String) (v : String) : List Any × List String :=
  (acc.1 ++ [Any.str (mapGet value v)], acc.2 ++ [placeholder p])

/-- Body of the outer loop of `getSQLInsertArr` (lines 409-418); `strArr` holds `valuesArr`. -/
def insertArrRow (fieldArrKey : List String) (st : Acc) (value : List (String × String)) : Acc :=
  let r := fieldArrKey.foldl (insertArrCell value st.ParamsIndex) (st.Scan, [])
  { Scan := r.1, ParamsIndex := incr st.ParamsIndex,
    strArr := st.strArr ++ ["(" ++ stringsJoin r.2 "," ++ ")"] }

/-- The method `getSQLInsertArr`. Indexing `m.InsertArr[0]` panics on an empty batch. -/
def getSQLInsertArr (m : Model) : Option (String × Model) :=
  match m.InsertArr with
  | [] => none
  | first :: _ =>
    let fieldArr := first.foldl (fun acc e => acc ++ [e.1]) []
    let fieldArrKey := first.foldl (fun acc e => acc ++ [e.1]) []
    let st := m.InsertArr.foldl (insertArrRow fieldArrKey)
      { Scan := m.Scan, ParamsIndex := m.ParamsIndex, strArr := [] }
    some ("(" ++ stringsJoin fieldArr "," ++ ")" ++ " values " ++ stringsJoin st.strArr ",",
      { m with Scan := st.Scan, ParamsIndex := st.ParamsIndex })

/-- The method `getSQLLimite`. Indexing a `[]int` with fewer than two elements panics. -/
def getSQLLimite (m : Model) : Option String :=
  match m.Limit with
  | LimitValue.pair a b => some (" LIMIT " ++ toString a ++ ", " ++ toString b)
  | LimitValue.slice (a :: b :: _) => some (" LIMIT " ++ toString a ++ ", " ++ toString b)
  | LimitValue.slice _ => none
  | _ => some ""

/-- The method `Clean`: thirteen fields are reset, `Tx` and `Ctx` are not assigned. -/
def Clean (m : Model) : Model :=
  { m with
    Cond := CondValue.null, Insert := [], InsertArr := [], Update := [], Field := "", Table := "",
    Index := "", Limit := LimitValue.null, Sort_ := "", GroupBy := "", IsDeug := 0,
    ParamsIndex := 1, Scan := [] }

/-- Modelled from the spec: the setter `SetLimit`, which `ExecSelectOne` calls, is not in
`src/`; it is taken to store its argument in the field `Limit` (the spec's `limit`, absent
or a pair). -/
def SetLimit (m : Model) (limit : LimitValue) : Model :=
  { m with Limit := limit }

/-! ## The executing collaborator and the row decoder -/

/-- The receiver of a call: the shared pool `Db`, or the transaction stored in `Tx`. -/
inductive Handle where
  | pool
  | tx (h : Nat)
  deriving DecidableEq, Repr

/-- The branch `if m.Tx == nil` found in every operation. -/
def handleOf (m : Model) : Handle :=
  match m.Tx with
  | none => Handle.pool
  | some h => Handle.tx h

/-- The integer kinds of Go's `reflect` package: the four fixed widths and the
platform-width kind (`reflect.Int`, `reflect.Uint`). -/
inductive IntKind where
  | w8
  | w16
  | w32
  | w64
  | platform
  deriving DecidableEq, Repr

/-- A value the driver scanned into an `interface{}` container, by dynamic type. A
floating-point value is represented by the text `strconv.FormatFloat(v, 'f', -1, 64)`
gives for it, a `time.Time` by its rendering in the layout
`2006-01-02 15:04:05.000 -0700`, a byte slice by the string of its bytes. `bytes` is a
value of type `[]byte` itself; `namedBytes` is a value of any other slice type whose
elements have kind `uint8` (a named type such as `net.HardwareAddr`); `slice` is a slice
whose elements have another kind. -/
inductive Scanned where
  | null
  | sint (k : IntKind) (v : Int)
  | uint (k : IntKind) (v : Nat)
  | float (text : String)
  | bytes (s : String)
  | namedBytes (s : String)
  | slice (tag : Nat)
  | text (s : String)
  | time (text : String)
  | struct (tag : Nat)
  | bool (b : Bool)
  | other (tag : Nat)
  deriving DecidableEq, Repr

/-- One row of a reply: `rows.Scan` fails with an error, or fills the containers. -/
inductive RowScan where
  | fail (err : String)
  | ok (vals : List Scanned)
  deriving DecidableEq, Repr

/-- Reply of `Query`: an error, or the field names and the rows in emission order. -/
inductive QueryReply where
  | error (err : String)
  | rows (fields : List String) (rs : List RowScan)
  deriving DecidableEq, Repr

/-- The executing collaborator (pool or transaction), as the replies it gives to a call
made on a handle with an SQL text and its arguments. `Exec` answers nil or an error;
`QueryRow` answers what `.Scan(&id)` yields; `QueryIds` answers a `Query` whose rows are
scanned into a string (`none` for a row on which `Scan` fails). A failing `Query` hands
back a cursor without rows, as the pgx pool and transaction do. Connection set-up is
outside the model. -/
structure Driver where
  Exec : Handle → String → List Any → Option String
  QueryRow : Handle → String → List Any → Except String String
  QueryIds : Handle → String → List Any → Except String (List (Option String))
  Query : Handle → String → List Any → QueryReply

/-- The assignment `result[name] = value` on a map with string keys. -/
def mapSet {α : Type} (row : List (String × α)) (name : String) (value : α) : List (String × α) :=
  match row with
  | [] => [(name, value)]
  | (k, v) :: rest => if k = name then (k, value) :: rest else (k, v) :: mapSet rest name value

/-- The decoding of one column (lines 503-537): the nil test and the `switch` on the kind.
The type assertion to `time.Time` panics on any other struct, and the type assertion to
`[]byte` panics on a slice of `uint8` elements that is of another type. -/
def decodeCell (result : List (String × String)) (name : String) (v : Scanned) :
    Option (List (String × String)) :=
  match v with
  | Scanned.null => some (mapSet result name "")
  | Scanned.sint IntKind.platform _ => some result
  | Scanned.sint _ i => some (mapSet result name (toString i))
  | Scanned.uint IntKind.platform _ => some result
  | Scanned.uint _ n => some (mapSet result name (toString n))
  | Scanned.float t => some (mapSet result name t)
  | Scanned.bytes b => some (mapSet result name b)
  | Scanned.namedBytes _ => none
  | Scanned.slice _ => some result
  | Scanned.text t => some (mapSet result name t)
  | Scanned.time t => some (mapSet result name t)
  | Scanned.struct _ => none
  | Scanned.bool b => some (mapSet result name (if b then "1" else "0"))
  | Scanned.other _ => some result

/-- The loop over the fields of one scanned row (lines 502-538). -/
def decodeRow : List (String × Scanned) → List (String × String) →
    Option (List (String × String))
  | [], result => some result
  | (name, v) :: rest, result =>
    match decodeCell result name v with
    | none => none
    | some result1 => decodeRow rest result1

/-- The loop `for rows.Next()` of `query` (lines 492-541): a failing `Scan` returns the rows
decoded so far together with the error. One container is allocated per field, so the
scanned values are paired with the field names position by position. -/
def queryRows (fields : List String) : List RowScan → List (List (String × String)) →
    Option (List (List (String × String)) × Option String)
  | [], resultsSlice => some (resultsSlice, none)
  | RowScan.fail err :: _, resultsSlice => some (resultsSlice, some err)
  | RowScan.ok vals :: rest, resultsSlice =>
    match decodeRow (fields.zip vals) [] with
    | none => none
    | some result => queryRows fields rest (resultsSlice ++ [result])

/-- The method `query`: the decoded rows and the error. -/
def query (d : Driver) (m : Model) (sqlStr : String) :
    Option (List (List (String × String)) × Option String) :=
  match d.Query (handleOf m) sqlStr m.Scan with
  | QueryReply.error err => some ([], some err)
  | QueryReply.rows fields rs => queryRows fields rs []

/-! ## The terminal operations

Each returns what the method returns together with the model after the call. -/

/-- The method `execSelect`. -/
def execSelect (d : Driver) (m : Model) :
    Option ((List (List (String × String)) × Option String) × Model) :=
  let field := getSQLField m
  let c := getSQLCond m
  let groupby := getGroupBy c.2
  let sort := getSort c.2
  match getSQLLimite c.2 with
  | none => none
  | some limit =>
    let sqlStr := "SELECT " ++ field ++ " FROM " ++ c.2.Table ++ c.1 ++ groupby ++ sort ++ limit ++ ";"
    match query d c.2 sqlStr with
    | none => none
    | some r => some (r, c.2)

/-- The method `ExecSelect`. -/
def ExecSelect (d : Driver) (m : Model) :
    Option ((List (List (String × String)) × Option String) × Model) :=
  match execSelect d m with
  | none => none
  | some (r, m1) => some (r, Clean m1)

/-- Body of the loop of `ExecSelectIndex` (lines 90-95) for the index column `index`. -/
def indexStep (index : String) (retArr : List (String × List (String × String)))
    (v : List (String × String)) : List (String × List (String × String)) :=
  if mapGet v index = "" then retArr else mapSet retArr (mapGet v index) v

/-- The method `ExecSelectIndex`. -/
def ExecSelectIndex (d : Driver) (m : Model) :
    Option ((List (String × List (String × String)) × Option String) × Model) :=
  match execSelect d m with
  | none => none
  | some (r, m1) => some ((r.1.foldl (indexStep m1.Index) [], r.2), Clean m1)

/-- The method `Query`. -/
def Query (d : Driver) (m : Model) (sqlStr : String) :
    Option ((List (List (String × String)) × Option String) × Model) :=
  match query d m sqlStr with
  | none => none
  | some r => some (r, Clean m)

/-- The method `ExecSelectOne`: the first row, or the empty row with the error. -/
def ExecSelectOne (d : Driver) (m : Model) :
    Option ((List (String × String) × Option String) × Model) :=
  match ExecSelect d (SetLimit m (LimitValue.pair 0 1)) with
  | none => none
  | some ((resultsSlice, err), m1) =>
    match resultsSlice with
    | [] => some (([], err), m1)
    | first :: _ => some ((first, none), m1)

/-- The method `ExecUpdate`: the error of the call, and the model after it. -/
def ExecUpdate (d : Driver) (m : Model) : Option String × Model :=
  let u := getSQLUpdate m
  let c := getSQLCond u.2
  let sqlStr := "UPDATE " ++ c.2.Table ++ " SET " ++ u.1 ++ c.1 ++ ";"
  let err := d.Exec (handleOf c.2) sqlStr c.2.Scan
  (err, Clean c.2)

/-- The method `ExecInsert`: the returned key (empty on failure), the error, the model. -/
def ExecInsert (d : Driver) (m : Model) (PrimaryKey : String) : (String × Option String) × Model :=
  let i := getSQLInsert m
  let sqlStr := "INSERT INTO " ++ i.2.Table ++ " " ++ i.1 ++ " RETURNING " ++ PrimaryKey ++ ";"
  match d.QueryRow (handleOf i.2) sqlStr i.2.Scan with
  | Except.ok id => ((id, none), Clean i.2)
  | Except.error err => (("", some err), Clean i.2)

/-- The method `ExecInsertBatch`: the scanned ids (a failed `Scan` leaves `""`), the error. -/
def ExecInsertBatch (d : Driver) (m : Model) : Option ((List String × Option String) × Model) :=
  match getSQLInsertArr m with
  | none => none
  | some (insert, m1) =>
    let sqlStr := "INSERT INTO " ++ m1.Table ++ " " ++ insert ++ ";"
    match d.QueryIds (handleOf m1) sqlStr m1.Scan with
    | Except.ok rows => some ((rows.map (fun r => r.getD ""), none), Clean m1)
    | Except.error err => some (([], some err), Clean m1)

/-- The method `ExecDelete`. -/
def ExecDelete (d : Driver) (m : Model) : Option String × Model :=
  let c := getSQLCond m
  let sqlStr := "DELETE FROM " ++ c.2.Table ++ c.1 ++ ";"
  let err := d.Exec (handleOf c.2) sqlStr c.2.Scan
  (err, Clean c.2)

/-- The method `Exec`, for a caller-supplied statement and parameters. -/
def Exec (d : Driver) (m : Model) (sqlStr : String) (params : List Any) : Option String × Model :=
  let err := d.Exec (handleOf m) sqlStr params
  (err, Clean m)

/-- The terminal operations, with their arguments. -/
inductive TerminalOp where
  | execSelect
  | execSelectIndex
  | execSelectOne
  | query (sqlStr : String)
  | execInsert (PrimaryKey : String)
  | execInsertBatch
  | execUpdate
  | execDelete
  | exec (sqlStr : String) (params : List Any)
  deriving DecidableEq, Repr

/-- The model a terminal operation leaves behind; `none` when the operation panics. -/
def modelAfter (d : Driver) (m : Model) : TerminalOp → Option Model
  | TerminalOp.execSelect => (ExecSelect d m).map Prod.snd
  | TerminalOp.execSelectIndex => (ExecSelectIndex d m).map Prod.snd
  | TerminalOp.execSelectOne => (ExecSelectOne d m).map Prod.snd
  | TerminalOp.query sqlStr => (Query d m sqlStr).map Prod.snd
  | TerminalOp.execInsert PrimaryKey => some (ExecInsert d m PrimaryKey).2
  | TerminalOp.execInsertBatch => (ExecInsertBatch d m).map Prod.snd
  | TerminalOp.execUpdate => some (ExecUpdate d m).2
  | TerminalOp.execDelete => some (ExecDelete d m).2
  | TerminalOp.exec sqlStr params => some (Exec d m sqlStr params).2

/-! ## Reading an emitted text -/

/-- The value of a run of decimal digits. -/
def digitsValue (ds : List Char) : Nat :=
  ds.foldl (fun n c => 10 * n + (c.toNat - 48)) 0

/-- The ordinals of the placeholders (`$` followed by digits) of a text, left to right. -/
def placeholdersIn : List Char → List Nat
  | [] => []
  | c :: cs =>
    if c = '$' ∧ (cs.takeWhile Char.isDigit) ≠ [] then
      digitsValue (cs.takeWhile Char.isDigit) :: placeholdersIn cs
    else placeholdersIn cs

/-- The state `Clean` leaves behind, for a model without transaction. -/
def emptyModel : Model :=
  { Cond := CondValue.null, Insert := [], InsertArr := [], Update := [], Field := "", Table := "",
    Index := "", Limit := LimitValue.null, Sort_ := "", GroupBy := "", IsDeug := 0,
    ParamsIndex := 1, Tx := none, Ctx := 0, Scan := [] }

/-! ## Spec-side vocabulary -/

/-- The cursor after `n` increments. -/
def advance (p : Int) : Nat → Int
  | 0 => p
  | n + 1 => advance (incr p) n

/-- The list obtained by applying `f` to each element together with the cursor value
current when that element is reached, the cursor moving by one increment per element. -/
def threaded {α β : Type} (f : Int → α → β) : Int → List α → List β
  | _, [] => []
  | p, a :: rest => f p a :: threaded f (incr p) rest

/-- The values one entry of a typed condition mapping appends to `Scan`. -/
def typedBinds (e : String × Any) : List Any :=
  match e.2 with
  | Any.str s => [Any.str s]
  | Any.strs l => if l.length = 0 then [Any.str ""] else l.map Any.str
  | _ => []

/-- The fragments (none or one) one entry of a typed condition mapping appends to `strArr`
when the cursor is `p`. -/
def typedFrags (p : Int) (e : String × Any) : List String :=
  match e.2 with
  | Any.str _ => [condFragment e.1 (placeholder p)]
  | Any.strs l =>
    if l.length = 0 then [e.1 ++ "=" ++ placeholder p]
    else [e.1 ++ " in (" ++ stringsJoin (List.replicate l.length (placeholder p)) "," ++ ")"]
  | _ => []

/-- The defaults a reset leaves in the builder fields: cursor one, no bound values, and
condition, insert, batch, update, limit, sort, group-by, field list, table, index column
and debug flag cleared. -/
def IsReset (m : Model) : Prop :=
  m.ParamsIndex = 1 ∧ m.Scan = [] ∧ m.Cond = CondValue.null ∧ m.Insert = [] ∧
    m.InsertArr = [] ∧ m.Update = [] ∧ m.Limit = LimitValue.null ∧ m.Sort_ = "" ∧
    m.GroupBy = "" ∧ m.Field = "" ∧ m.Table = "" ∧ m.Index = "" ∧ m.IsDeug = 0

/-- The scanned values on which one of the two unchecked type assertions of the decoder
fails: a struct other than a timestamp, and a slice of `uint8` elements other than
`[]byte`. -/
def failsAssertion : Scanned → Bool
  | Scanned.struct _ => true
  | Scanned.namedBytes _ => true
  | _ => false

/-- A collaborator none of whose replies holds a value on which a type assertion of the
decoder fails. -/
def Decodable (d : Driver) : Prop :=
  ∀ (h : Handle) (sqlStr : String) (args : List Any) (fields : List String) (rs : List RowScan)
    (vals : List Scanned),
    d.Query h sqlStr args = QueryReply.rows fields rs → RowScan.ok vals ∈ rs →
      ∀ v ∈ vals, failsAssertion v = false

/-- A collaborator that reports, as the error of `Exec`, which handle received the call. -/
def probeDriver : Driver :=
  { Exec := fun h _ _ =>
      match h with
      | Handle.pool => some "pool"
      | Handle.tx _ => some "transaction"
    QueryRow := fun _ _ _ => Except.ok ""
    QueryIds := fun _ _ _ => Except.ok []
    Query := fun _ _ _ => QueryReply.rows [] [] }

/-- A collaborator that answers every `Query` with the given reply. -/
def replyDriver (reply : QueryReply) : Driver :=
  { Exec := fun _ _ _ => none
    QueryRow := fun _ _ _ => Except.ok ""
    QueryIds := fun _ _ _ => Except.ok []
    Query := fun _ _ _ => reply }

/-- A typed condition value that `getSQLCond` binds: a string or a sequence of strings. -/
def isStringOrStrings : Any → Bool
  | Any.str _ => true
  | Any.strs _ => true
  | _ => false

/-- The model at the point where a terminal operation panics. The methods assign to the
model through a pointer: the panic of `getSQLInsertArr` comes before any assignment, and
the panics of `getSQLLimite` and of the decoder come after `getSQLCond` (and, in
`ExecSelectOne`, `SetLimit`) has assigned; `query` assigns nothing. -/
def modelAtPanic (m : Model) : TerminalOp → Model
  | TerminalOp.execSelect => (getSQLCond m).2
  | TerminalOp.execSelectIndex => (getSQLCond m).2
  | TerminalOp.execSelectOne => (getSQLCond (SetLimit m (LimitValue.pair 0 1))).2
  | _ => m

/-- The model as a terminal operation leaves it, whether the method returns or panics:
`Clean` is the last statement of every method and is not deferred, so a panic leaves the
model as it was when the panic was raised. -/
def receiverAfter (d : Driver) (m : Model) (op : TerminalOp) : Model :=
  (modelAfter d m op).getD (modelAtPanic m op)

theorem wrapInt_of_range (x : Int) (hlo : -9223372036854775808 ≤ x)
    (hhi : x < 9223372036854775808) : wrapInt x = x := by
  unfold wrapInt
  omega

theorem advance_succ (p : Int) (n : Nat) : advance p (n + 1) = incr (advance p n) := by
  induction n generalizing p with
  | zero => rfl
  | succ k ih =>
    show advance (incr p) (k + 1) = incr (advance (incr p) k)
    exact ih (incr p)

theorem advance_eq_add (p : Int) (n : Nat) (hlo : -9223372036854775808 ≤ p)
    (hhi : p + n < 9223372036854775808) : advance p n = p + n := by
  induction n generalizing p with
  | zero => simp [advance]
  | succ k ih =>
    have h1 : incr p = p + 1 := by
      unfold incr
      exact wrapInt_of_range _ (by omega) (by push_cast at hhi; omega)
    show advance (incr p) k = p + ((k + 1 : Nat) : Int)
    rw [h1, ih (p + 1) (by omega) (by push_cast at hhi ⊢; omega)]
    push_cast
    omega

theorem advance_add (p : Int) (a b : Nat) : advance (advance p a) b = advance p (a + b) := by
  induction a generalizing p with
  | zero => simp [advance]
  | succ c ih =>
    rw [show c + 1 + b = (c + b) + 1 by omega]
    exact ih (incr p)

theorem threaded_length {α β : Type} (f : Int → α → β) (p : Int) (l : List α) :
    (threaded f p l).length = l.length := by
  induction l generalizing p with
  | nil => rfl
  | cons a rest ih => simp [threaded, ih]

theorem threaded_getElem? {α β : Type} (f : Int → α → β) (p : Int) (l : List α) (i : Nat) :
    (threaded f p l)[i]? = (l[i]?).map (f (advance p i)) := by
  induction l generalizing p i with
  | nil => simp [threaded]
  | cons a rest ih =>
    cases i with
    | zero => simp [threaded, advance]
    | succ j => simp [threaded, advance, ih]

theorem threaded_append {α β : Type} (f : Int → α → β) (p : Int) (l₁ l₂ : List α) :
    threaded f p (l₁ ++ l₂) = threaded f p l₁ ++ threaded f (advance p l₁.length) l₂ := by
  induction l₁ generalizing p with
  | nil => simp [threaded, advance]
  | cons a rest ih => simp [threaded, advance, ih]

theorem foldl_condFlatStep (es : List (String × String)) (st : Acc) :
    es.foldl condFlatStep st =
      { Scan := st.Scan ++ es.map (fun e => Any.str e.2),
        ParamsIndex := advance st.ParamsIndex es.length,
        strArr := st.strArr ++
          threaded (fun p e => condFragment e.1 (placeholder p)) st.ParamsIndex es } := by
  induction es generalizing st with
  | nil => simp [advance, threaded]
  | cons e rest ih =>
    rw [List.foldl_cons, ih]
    simp [condFlatStep, advance, threaded]

theorem foldl_condInStep (ph : String) (l : List String) (scan : List Any) (acc : List String) :
    l.foldl (condInStep ph) (scan, acc) =
      (scan ++ l.map Any.str, acc ++ List.replicate l.length ph) := by
  induction l generalizing scan acc with
  | nil => simp
  | cons sv rest ih =>
    rw [List.foldl_cons]
    simp only [condInStep]
    rw [ih]
    simp [List.replicate_succ]

theorem condTypedStep_eq (st : Acc) (e : String × Any) :
    condTypedStep st e =
      { Scan := st.Scan ++ typedBinds e, ParamsIndex := incr st.ParamsIndex,
        strArr := st.strArr ++ typedFrags st.ParamsIndex e } := by
  obtain ⟨k, v⟩ := e
  cases v with
  | str s => simp [condTypedStep, typedBinds, typedFrags]
  | strs l =>
    by_cases h : l.length = 0
    · simp [condTypedStep, typedBinds, typedFrags, h]
    · simp [condTypedStep, typedBinds, typedFrags, h, foldl_condInStep]
  | int i => simp [condTypedStep, typedBinds, typedFrags]
  | other t => simp [condTypedStep, typedBinds, typedFrags]

theorem foldl_condTypedStep (es : List (String × Any)) (st : Acc) :
    es.foldl condTypedStep st =
      { Scan := st.Scan ++ (es.map typedBinds).flatten,
        ParamsIndex := advance st.ParamsIndex es.length,
        strArr := st.strArr ++ (threaded typedFrags st.ParamsIndex es).flatten } := by
  induction es generalizing st with
  | nil => simp [advance, threaded]
  | cons e rest ih =>
    rw [List.foldl_cons, ih, condTypedStep_eq]
    simp [advance, threaded]

theorem foldl_updateStep (es : List (String × String)) (st : Acc) :
    es.foldl updateStep st =
      { Scan := st.Scan ++ es.map (fun e => Any.str e.2),
        ParamsIndex := advance st.ParamsIndex es.length,
        strArr := st.strArr ++
          threaded (fun p e => "\"" ++ e.1 ++ "\"=" ++ placeholder p) st.ParamsIndex es } := by
  induction es generalizing st with
  | nil => simp [advance, threaded]
  | cons e rest ih =>
    rw [List.foldl_cons, ih]
    simp [updateStep, advance, threaded]

theorem foldl_insertStep (es : List (String × String)) (st : InsertAcc) :
    es.foldl insertStep st =
      { Scan := st.Scan ++ es.map (fun e => Any.str e.2),
        ParamsIndex := advance st.ParamsIndex es.length,
        fieldArr := st.fieldArr ++ es.map Prod.fst,
        valueArr := st.valueArr ++ threaded (fun p _ => placeholder p) st.ParamsIndex es } := by
  induction es generalizing st with
  | nil => simp [advance, threaded]
  | cons e rest ih =>
    rw [List.foldl_cons, ih]
    simp [insertStep, advance, threaded]

theorem foldl_fieldArr (first : List (String × String)) (acc : List String) :
    first.foldl (fun acc e => acc ++ [e.1]) acc = acc ++ first.map Prod.fst := by
  induction first generalizing acc with
  | nil => simp
  | cons e rest ih =>
    rw [List.foldl_cons, ih]
    simp

theorem foldl_insertArrCell (value : List (String × String)) (p : Int) (keys : List String)
    (scan : List Any) (acc : List String) :
    keys.foldl (insertArrCell value p) (scan, acc) =
      (scan ++ keys.map (fun c => Any.str (mapGet value c)),
        acc ++ List.replicate keys.length (placeholder p)) := by
  induction keys generalizing scan acc with
  | nil => simp
  | cons c rest ih =>
    rw [List.foldl_cons]
    simp only [insertArrCell]
    rw [ih]
    simp [List.replicate_succ]

theorem foldl_insertArrRow (keys : List String) (rows : List (List (String × String)))
    (st : Acc) :
    rows.foldl (insertArrRow keys) st =
      { Scan := st.Scan ++
          (rows.map (fun row => keys.map (fun c => Any.str (mapGet row c)))).flatten,
        ParamsIndex := advance st.ParamsIndex rows.length,
        strArr := st.strArr ++
          threaded (fun p _ => "(" ++ stringsJoin (List.replicate keys.length (placeholder p)) ","
            ++ ")") st.ParamsIndex rows } := by
  induction rows generalizing st with
  | nil => simp [advance, threaded]
  | cons row rest ih =>
    rw [List.foldl_cons, ih]
    simp [insertArrRow, foldl_insertArrCell, advance, threaded]

theorem mapGet_of_not_mem (row : List (String × String)) (c : String)
    (h : c ∉ row.map Prod.fst) : mapGet row c = "" := by
  induction row with
  | nil => rfl
  | cons e rest ih =>
    obtain ⟨k, v⟩ := e
    simp only [List.map_cons, List.mem_cons, not_or] at h
    have hne : (c == k) = false := by simpa using h.1
    simp only [mapGet, List.lookup, hne]
    exact ih h.2

theorem map_mapGet_self (row : List (String × String)) (h : (row.map Prod.fst).Nodup) :
    (row.map Prod.fst).map (fun c => mapGet row c) = row.map Prod.snd := by
  induction row with
  | nil => rfl
  | cons e rest ih =>
    obtain ⟨k, v⟩ := e
    simp only [List.map_cons, List.nodup_cons] at h
    simp only [List.map_cons, List.map_map]
    congr 1
    · simp [mapGet, List.lookup]
    · rw [← ih h.2, List.map_map]
      apply List.map_congr_left
      intro e he
      have hne : (e.1 == k) = false := by
        have : e.1 ≠ k := by
          intro heq
          exact h.1 (heq ▸ List.mem_map_of_mem Prod.fst he)
        simpa using this
      simp [mapGet, List.lookup, hne]

theorem containsChars_iff (l sub : List Char) : containsChars l sub = true ↔ sub <:+: l := by
  induction l with
  | nil => simp [containsChars, List.isEmpty_iff]
  | cons c cs ih =>
    simp only [containsChars, Bool.or_eq_true, ih, List.infix_cons_iff, List.isPrefixOf_iff_prefix]

theorem condTypedStep_str (st : Acc) (e : String × String) :
    condTypedStep st (e.1, Any.str e.2) = condFlatStep st e := by
  simp [condTypedStep, condFlatStep]

theorem foldl_condTypedStep_strs (es : List (String × String)) (st : Acc) :
    (es.map (fun e => (e.1, Any.str e.2))).foldl condTypedStep st = es.foldl condFlatStep st := by
  induction es generalizing st with
  | nil => rfl
  | cons e rest ih =>
    simp only [List.map_cons, List.foldl_cons, condTypedStep_str, ih]

/-- C7: a flat mapping binds each value once, in iteration order, and yields one fragment
per entry: key, blank, placeholder when the key contains LIKE, > or <, and key, equals sign,
placeholder otherwise, each placeholder numbered by the cursor current at that entry; the
clause is the empty text for an empty mapping and otherwise the fragments joined by the
separator after the WHERE keyword. A typed mapping whose values are all single strings
compiles to the same text, bound values and cursor. -/
theorem getSQLCond_flat_mapping (m : Model) (entries : List (String × String)) :
    ∃ frags : List String,
      getSQLCond { m with Cond := CondValue.flat entries } =
        (if entries = [] then "" else " WHERE " ++ stringsJoin frags " && ",
          { m with
            Cond := CondValue.flat entries,
            Scan := m.Scan ++ entries.map (fun e => Any.str e.2),
            ParamsIndex := advance m.ParamsIndex entries.length })
      ∧ (∀ i : Nat, frags[i]? = (entries[i]?).map (fun e =>
          if (stringsContains e.1 "LIKE" || stringsContains e.1 ">" || stringsContains e.1 "<") = true
          then e.1 ++ " " ++ placeholder (advance m.ParamsIndex i)
          else e.1 ++ "=" ++ placeholder (advance m.ParamsIndex i)))
      ∧ getSQLCond { m with Cond := CondValue.typed (entries.map (fun e => (e.1, Any.str e.2))) } =
        (if entries = [] then "" else " WHERE " ++ stringsJoin frags " && ",
          { m with
            Cond := CondValue.typed (entries.map (fun e => (e.1, Any.str e.2))),
            Scan := m.Scan ++ entries.map (fun e => Any.str e.2),
            ParamsIndex := advance m.ParamsIndex entries.length }) := by
  have hlen : (threaded (fun p (e : String × String) => condFragment e.1 (placeholder p))
      m.ParamsIndex entries).length = 0 ↔ entries = [] := by
    rw [threaded_length]
    exact List.length_eq_zero
  refine ⟨threaded (fun p e => condFragment e.1 (placeholder p)) m.ParamsIndex entries, ?_, ?_, ?_⟩
  · simp only [getSQLCond, foldl_condFlatStep, condFinish, List.nil_append]
    by_cases h : entries = []
    · simp [h, threaded, advance]
    · simp [h, hlen]
  · intro i
    rw [threaded_getElem?]
    cases entries[i]? with
    | none => rfl
    | some e =>
      simp only [Option.map_some', condFragment, Bool.or_eq_true]
      by_cases h1 : stringsContains e.1 "LIKE" = true
      · simp [h1]
      · by_cases h2 : stringsContains e.1 ">" = true ∨ stringsContains e.1 "<" = true
        · simp [h1, h2]
        · simp [h1, h2]
  · simp only [getSQLCond, foldl_condTypedStep_strs, foldl_condFlatStep, condFinish,
      List.nil_append]
    by_cases h : entries = []
    · simp [h, threaded, advance]
    · simp [h, hlen]

/-- C1: on a freshly reset model the typed condition with the two-element sequence under
the key id compiles to a text whose placeholders are numbered 1 and 1 while two values are
bound, and the one-row batch with columns a and b compiles to a tuple whose placeholders
are numbered 1 and 1 while two values are bound: the second placeholder is not the second
ordinal. -/
theorem placeholders_repeat_within_entry :
    getSQLCond { emptyModel with Cond := CondValue.typed [("id", Any.strs ["a", "b"])] } =
        (" WHERE id in ($1,$1)",
          { emptyModel with
            Cond := CondValue.typed [("id", Any.strs ["a", "b"])],
            Scan := [Any.str "a", Any.str "b"], ParamsIndex := 2 })
      ∧ placeholdersIn (getSQLCond
          { emptyModel with Cond := CondValue.typed [("id", Any.strs ["a", "b"])] }).1.data = [1, 1]
      ∧ getSQLInsertArr { emptyModel with InsertArr := [[("a", "1"), ("b", "2")]] } =
        some ("(a,b) values ($1,$1)",
          { emptyModel with
            InsertArr := [[("a", "1"), ("b", "2")]],
            Scan := [Any.str "1", Any.str "2"], ParamsIndex := 2 })
      ∧ placeholdersIn "(a,b) values ($1,$1)".data = [1, 1] := by
  refine ⟨by rfl, by decide, by rfl, by decide⟩

/-- C2: the reset model satisfies cursor = number of bound values + 1, and the invariant is
lost by getSQLCond on a three-element sequence (cursor 2, three values), by getSQLCond on an
integer-valued entry (cursor 2, no value) and by getSQLInsertArr on a one-row batch of two
columns (cursor 2, two values). -/
theorem cursor_invariant_lost :
    emptyModel.ParamsIndex = emptyModel.Scan.length + 1
      ∧ ((getSQLCond { emptyModel with
            Cond := CondValue.typed [("id", Any.strs ["a", "b", "c"])] }).2.ParamsIndex = 2
        ∧ (getSQLCond { emptyModel with
            Cond := CondValue.typed [("id", Any.strs ["a", "b", "c"])] }).2.Scan.length = 3)
      ∧ ((getSQLCond { emptyModel with
            Cond := CondValue.typed [("age>", Any.int 30)] }).2.ParamsIndex = 2
        ∧ (getSQLCond { emptyModel with
            Cond := CondValue.typed [("age>", Any.int 30)] }).2.Scan.length = 0)
      ∧ ((getSQLInsertArr { emptyModel with InsertArr := [[("a", "1"), ("b", "2")]] }).map
            (fun r => (r.2.ParamsIndex, r.2.Scan.length)) = some (2, 2)) := by
  refine ⟨by decide, ⟨by rfl, by rfl⟩, ⟨by rfl, by rfl⟩, by rfl⟩

/-- C3: on the reset model the typed condition with the sequence a, b, c under the key id
yields an IN fragment with three placeholders and binds a, b, c in that order, but all three
placeholders carry the ordinal 1 and the cursor moves to 2 only: the second and third
placeholders do not denote b and c. -/
theorem in_list_single_ordinal :
    getSQLCond { emptyModel with Cond := CondValue.typed [("id", Any.strs ["a", "b", "c"])] } =
        (" WHERE id in ($1,$1,$1)",
          { emptyModel with
            Cond := CondValue.typed [("id", Any.strs ["a", "b", "c"])],
            Scan := [Any.str "a", Any.str "b", Any.str "c"], ParamsIndex := 2 })
      ∧ placeholdersIn " WHERE id in ($1,$1,$1)".data = [1, 1, 1] := by
  refine ⟨by rfl, by decide⟩

/-- The IN-list branch in general: a sequence of n > 0 strings under key k, met at cursor p,
yields n copies of the placeholder of p, binds the n strings and moves the cursor once. -/
theorem getSQLCond_in_list (m : Model) (k : String) (l : List String) (hl : l ≠ []) :
    getSQLCond { m with Cond := CondValue.typed [(k, Any.strs l)] } =
      (" WHERE " ++ stringsJoin
          [k ++ " in (" ++ stringsJoin (List.replicate l.length (placeholder m.ParamsIndex)) ","
            ++ ")"] " && ",
        { m with
          Cond := CondValue.typed [(k, Any.strs l)],
          Scan := m.Scan ++ l.map Any.str, ParamsIndex := incr m.ParamsIndex }) := by
  have h0 : l.length ≠ 0 := fun h => hl (List.length_eq_zero.mp h)
  simp [getSQLCond, condFinish, condTypedStep, foldl_condInStep, h0]

/-- C4: the typed mapping with the integer 30 under the key age> and the string x under the
key name, compiled from the reset model in its two iteration orders. With age> first the
clause is name=$2 while one value is bound, so ordinal 2 resolves to no bound value; with
name first the clause is name=$1 and ordinal 1 resolves to x. The two compilations do not
yield the same constraints. -/
theorem cond_order_changes_binding :
    (getSQLCond { emptyModel with
        Cond := CondValue.typed [("age>", Any.int 30), ("name", Any.str "x")] }).1
        = " WHERE name=$2"
      ∧ (getSQLCond { emptyModel with
        Cond := CondValue.typed [("age>", Any.int 30), ("name", Any.str "x")] }).2.Scan
        = [Any.str "x"]
      ∧ (getSQLCond { emptyModel with
        Cond := CondValue.typed [("age>", Any.int 30), ("name", Any.str "x")] }).2.Scan[2 - 1]?
        = none
      ∧ (getSQLCond { emptyModel with
        Cond := CondValue.typed [("name", Any.str "x"), ("age>", Any.int 30)] }).1
        = " WHERE name=$1"
      ∧ (getSQLCond { emptyModel with
        Cond := CondValue.typed [("name", Any.str "x"), ("age>", Any.int 30)] }).2.Scan
        = [Any.str "x"]
      ∧ (getSQLCond { emptyModel with
        Cond := CondValue.typed [("name", Any.str "x"), ("age>", Any.int 30)] }).2.Scan[1 - 1]?
        = some (Any.str "x") := by
  refine ⟨by rfl, by rfl, by rfl, by rfl, by rfl, by rfl⟩

theorem Clean_isReset (m : Model) : IsReset (Clean m) := by
  simp [IsReset, Clean]

theorem getSQLCond_model (m : Model) :
    (getSQLCond m).2 =
      { m with Scan := (getSQLCond m).2.Scan, ParamsIndex := (getSQLCond m).2.ParamsIndex } := by
  obtain ⟨c, _, _, _, _, _, _, _, _, _, _, _, _, _, _⟩ := m
  cases c with
  | null => rfl
  | raw str => by_cases h : str = "" <;> simp [getSQLCond, h]
  | flat arr => simp only [getSQLCond, condFinish]; split <;> rfl
  | typed arr => simp only [getSQLCond, condFinish]; split <;> rfl
  | other t => simp only [getSQLCond, condFinish]; split <;> rfl

theorem decodeCell_isSome (result : List (String × String)) (name : String) (v : Scanned) :
    (decodeCell result name v).isSome = !failsAssertion v := by
  cases v with
  | struct tag => rfl
  | namedBytes b => rfl
  | sint k i => cases k <;> rfl
  | uint k n => cases k <;> rfl
  | null => rfl
  | float t => rfl
  | bytes b => rfl
  | slice t => rfl
  | text t => rfl
  | time t => rfl
  | bool b => rfl
  | other t => rfl

theorem decodeRow_isSome (pairs : List (String × Scanned)) (result : List (String × String))
    (h : ∀ e ∈ pairs, failsAssertion e.2 = false) : (decodeRow pairs result).isSome = true := by
  induction pairs generalizing result with
  | nil => rfl
  | cons e rest ih =>
    obtain ⟨name, v⟩ := e
    have hv : (decodeCell result name v).isSome = true := by
      rw [decodeCell_isSome, h (name, v) (List.mem_cons_self _ _)]
      rfl
    obtain ⟨r1, hr1⟩ := Option.isSome_iff_exists.mp hv
    simp only [decodeRow, hr1]
    exact ih r1 (fun e he => h e (List.mem_cons_of_mem _ he))

theorem queryRows_isSome (fields : List String) (rs : List RowScan)
    (acc : List (List (String × String)))
    (h : ∀ vals, RowScan.ok vals ∈ rs → ∀ v ∈ vals, failsAssertion v = false) :
    (queryRows fields rs acc).isSome = true := by
  induction rs generalizing acc with
  | nil => rfl
  | cons r rest ih =>
    cases r with
    | fail err => rfl
    | ok vals =>
      have hrow : (decodeRow (fields.zip vals) []).isSome = true := by
        apply decodeRow_isSome
        intro e he
        have hmem : e.2 ∈ vals := (List.of_mem_zip (a := e.1) (b := e.2) he).2
        exact h vals (List.mem_cons_self _ _) e.2 hmem
      obtain ⟨row, hr⟩ := Option.isSome_iff_exists.mp hrow
      simp only [queryRows, hr]
      exact ih _ (fun vals hm => h vals (List.mem_cons_of_mem _ hm))

theorem query_isSome (d : Driver) (hd : Decodable d) (m : Model) (sqlStr : String) :
    (query d m sqlStr).isSome = true := by
  unfold query
  cases hq : d.Query (handleOf m) sqlStr m.Scan with
  | error err => rfl
  | rows fields rs =>
    exact queryRows_isSome fields rs [] (fun vals hm => hd _ _ _ fields rs vals hq hm)

theorem getSQLLimite_isSome (m : Model) (h : ∀ l, m.Limit = LimitValue.slice l → 2 ≤ l.length) :
    (getSQLLimite m).isSome = true := by
  unfold getSQLLimite
  cases hl : m.Limit with
  | null => rfl
  | pair a b => rfl
  | other t => rfl
  | slice l =>
    have h2 := h l hl
    match l, h2 with
    | a :: b :: rest, _ => rfl

theorem execSelect_isSome (d : Driver) (hd : Decodable d) (m : Model)
    (h : ∀ l, m.Limit = LimitValue.slice l → 2 ≤ l.length) : (execSelect d m).isSome = true := by
  have hlim : (getSQLCond m).2.Limit = m.Limit := by rw [getSQLCond_model]
  obtain ⟨limit, hl⟩ := Option.isSome_iff_exists.mp
    (getSQLLimite_isSome (getSQLCond m).2 (fun l hl => h l (hlim ▸ hl)))
  simp only [execSelect, hl]
  obtain ⟨r, hr⟩ := Option.isSome_iff_exists.mp (query_isSome d hd (getSQLCond m).2
    ("SELECT " ++ getSQLField m ++ " FROM " ++ (getSQLCond m).2.Table ++ (getSQLCond m).1 ++
      getGroupBy (getSQLCond m).2 ++ getSort (getSQLCond m).2 ++ limit ++ ";"))
  simp [hr]

/-- Every terminal operation that returns leaves the model reset (cursor one, no bound
values, all builder fields at their defaults), whatever the executing collaborator answers,
success or error. ExecInsert, ExecUpdate, ExecDelete and Exec always return;
ExecInsertBatch returns exactly when the batch has a row; Query and ExecSelectOne return
whenever no scanned value fails a type assertion of the decoder, and ExecSelect and
ExecSelectIndex when in addition a slice-valued limit has two elements. -/
theorem returning_operation_resets (d : Driver) (m : Model) :
    (∀ (op : TerminalOp) (m1 : Model), modelAfter d m op = some m1 → IsReset m1)
      ∧ (∀ (PrimaryKey sqlStr : String) (params : List Any),
          (modelAfter d m (TerminalOp.execInsert PrimaryKey)).isSome = true
            ∧ (modelAfter d m TerminalOp.execUpdate).isSome = true
            ∧ (modelAfter d m TerminalOp.execDelete).isSome = true
            ∧ (modelAfter d m (TerminalOp.exec sqlStr params)).isSome = true)
      ∧ ((modelAfter d m TerminalOp.execInsertBatch).isSome = true ↔ m.InsertArr ≠ [])
      ∧ (Decodable d →
          (∀ sqlStr : String, (modelAfter d m (TerminalOp.query sqlStr)).isSome = true)
            ∧ (modelAfter d m TerminalOp.execSelectOne).isSome = true
            ∧ ((∀ l, m.Limit = LimitValue.slice l → 2 ≤ l.length) →
                (modelAfter d m TerminalOp.execSelect).isSome = true
                  ∧ (modelAfter d m TerminalOp.execSelectIndex).isSome = true)) := by
  refine ⟨?_, ?_, ?_, ?_⟩
  · intro op m1 h
    cases op with
    | execSelect =>
      simp only [modelAfter, ExecSelect] at h
      cases hs : execSelect d m with
      | none => simp [hs] at h
      | some r =>
        obtain ⟨r1, m2⟩ := r
        simp only [hs, Option.map_some', Option.some.injEq] at h
        exact h ▸ Clean_isReset m2
    | execSelectIndex =>
      simp only [modelAfter, ExecSelectIndex] at h
      cases hs : execSelect d m with
      | none => simp [hs] at h
      | some r =>
        obtain ⟨r1, m2⟩ := r
        simp only [hs, Option.map_some', Option.some.injEq] at h
        exact h ▸ Clean_isReset m2
    | execSelectOne =>
      simp only [modelAfter, ExecSelectOne, ExecSelect] at h
      cases hs : execSelect d (SetLimit m (LimitValue.pair 0 1)) with
      | none => simp [hs] at h
      | some r =>
        obtain ⟨⟨rows, err⟩, m2⟩ := r
        cases rows with
        | nil =>
          simp only [hs, Option.map_some', Option.some.injEq] at h
          exact h ▸ Clean_isReset m2
        | cons first rest =>
          simp only [hs, Option.map_some', Option.some.injEq] at h
          exact h ▸ Clean_isReset m2
    | query sqlStr =>
      simp only [modelAfter, Query] at h
      cases hs : query d m sqlStr with
      | none => simp [hs] at h
      | some r =>
        simp only [hs, Option.map_some', Option.some.injEq] at h
        exact h ▸ Clean_isReset m
    | execInsert PrimaryKey =>
      simp only [modelAfter, ExecInsert, Option.some.injEq] at h
      split at h <;> exact h ▸ Clean_isReset _
    | execInsertBatch =>
      simp only [modelAfter, ExecInsertBatch] at h
      cases hs : getSQLInsertArr m with
      | none => simp [hs] at h
      | some r =>
        obtain ⟨insert, m2⟩ := r
        simp only [hs] at h
        split at h
        · simp only [Option.map_some', Option.some.injEq] at h
          exact h ▸ Clean_isReset m2
        · simp only [Option.map_some', Option.some.injEq] at h
          exact h ▸ Clean_isReset m2
    | execUpdate =>
      simp only [modelAfter, ExecUpdate, Option.some.injEq] at h
      exact h ▸ Clean_isReset _
    | execDelete =>
      simp only [modelAfter, ExecDelete, Option.some.injEq] at h
      exact h ▸ Clean_isReset _
    | exec sqlStr params =>
      simp only [modelAfter, Exec, Option.some.injEq] at h
      exact h ▸ Clean_isReset _
  · intro PrimaryKey sqlStr params
    exact ⟨rfl, rfl, rfl, rfl⟩
  · simp only [modelAfter, ExecInsertBatch, getSQLInsertArr]
    cases hrows : m.InsertArr with
    | nil => simp
    | cons first rest =>
      simp only [Option.isSome_map', ne_eq, reduceCtorEq, not_false_eq_true, iff_true]
      split <;> rfl
  · intro hd
    refine ⟨?_, ?_, ?_⟩
    · intro sqlStr
      obtain ⟨r, hr⟩ := Option.isSome_iff_exists.mp (query_isSome d hd m sqlStr)
      simp [modelAfter, Query, hr]
    · have hs := execSelect_isSome d hd (SetLimit m (LimitValue.pair 0 1))
        (fun l hl => by simp [SetLimit] at hl)
      obtain ⟨⟨⟨rows, err⟩, m2⟩, hr⟩ := Option.isSome_iff_exists.mp hs
      cases rows <;> simp [modelAfter, ExecSelectOne, ExecSelect, hr]
    · intro hlim
      obtain ⟨⟨r1, m2⟩, hr⟩ := Option.isSome_iff_exists.mp (execSelect_isSome d hd m hlim)
      constructor
      · simp [modelAfter, ExecSelect, hr]
      · simp [modelAfter, ExecSelectIndex, hr]

/-- An update through a collaborator that answers with an error leaves the model reset. -/
theorem returning_operation_resets_example :
    IsReset (ExecUpdate probeDriver
      { emptyModel with Table := "t", Update := [("a", "1")], Cond := CondValue.flat [("id", "7")] }).2 :=
  (returning_operation_resets probeDriver
    { emptyModel with Table := "t", Update := [("a", "1")], Cond := CondValue.flat [("id", "7")] }).1
    TerminalOp.execUpdate _ rfl

/-- C6, the claim fails: with transaction 7 set, Clean leaves the handle in place, and an
update issued after Clean is answered by the transaction, not by the pool. -/
theorem Clean_keeps_transaction_example :
    (Clean { emptyModel with Tx := some 7 }).Tx ≠ none
      ∧ (ExecUpdate probeDriver (Clean { emptyModel with Tx := some 7 })).1
        = some "transaction" := by
  refine ⟨by decide, by rfl⟩

/-- C6, amended: Clean leaves the transaction handle and the execution context as they
were, so the handle an operation selects after Clean is the one it selected before: the
update issued after Clean goes to the earlier transaction when one was set and to the pool
only when none was set. -/
theorem Clean_preserves_transaction (m : Model) :
    (Clean m).Tx = m.Tx ∧ (Clean m).Ctx = m.Ctx ∧ handleOf (Clean m) = handleOf m
      ∧ ∀ d : Driver, ExecUpdate d (Clean m) = (d.Exec (handleOf m) "UPDATE  SET ;" [], Clean m) := by
  refine ⟨rfl, rfl, rfl, ?_⟩
  intro d
  rfl

theorem foldl_condTypedStep_from (es : List (String × Any)) (st : Acc) :
    es.foldl condTypedStep st =
      { Scan := st.Scan ++
          (es.foldl condTypedStep { Scan := [], ParamsIndex := st.ParamsIndex, strArr := [] }).Scan,
        ParamsIndex :=
          (es.foldl condTypedStep { Scan := [], ParamsIndex := st.ParamsIndex, strArr := [] }).ParamsIndex,
        strArr := st.strArr ++
          (es.foldl condTypedStep { Scan := [], ParamsIndex := st.ParamsIndex, strArr := [] }).strArr } := by
  rw [foldl_condTypedStep es st, foldl_condTypedStep es { Scan := [], ParamsIndex := st.ParamsIndex, strArr := [] }]
  simp

/-- C8: in a typed mapping, an entry whose value is the empty sequence appends exactly one
empty-string value to the bound values and the equality fragment key=placeholder, the
placeholder being that of the cursor current when the entry is reached (the cursor after
one increment per earlier entry); the entries before and after contribute what they
contribute on their own. -/
theorem getSQLCond_empty_sequence (m : Model) (pre post : List (String × Any)) (k : String) :
    getSQLCond { m with Cond := CondValue.typed (pre ++ (k, Any.strs []) :: post) } =
      (" WHERE " ++ stringsJoin
          ((pre.foldl condTypedStep { Scan := [], ParamsIndex := m.ParamsIndex, strArr := [] }).strArr
            ++ [k ++ "=" ++ placeholder (advance m.ParamsIndex pre.length)]
            ++ (post.foldl condTypedStep
                { Scan := [], ParamsIndex := advance m.ParamsIndex (pre.length + 1),
                  strArr := [] }).strArr) " && ",
        { m with
          Cond := CondValue.typed (pre ++ (k, Any.strs []) :: post),
          Scan := m.Scan
            ++ (pre.foldl condTypedStep { Scan := [], ParamsIndex := m.ParamsIndex, strArr := [] }).Scan
            ++ [Any.str ""]
            ++ (post.foldl condTypedStep
                { Scan := [], ParamsIndex := advance m.ParamsIndex (pre.length + 1),
                  strArr := [] }).Scan,
          ParamsIndex := advance m.ParamsIndex (pre.length + 1 + post.length) }) := by
  have hpre := foldl_condTypedStep pre { Scan := m.Scan, ParamsIndex := m.ParamsIndex, strArr := [] }
  have hpre0 := foldl_condTypedStep pre { Scan := [], ParamsIndex := m.ParamsIndex, strArr := [] }
  simp only [getSQLCond, List.foldl_append, List.foldl_cons]
  rw [hpre, condTypedStep_eq, foldl_condTypedStep_from post, hpre0]
  simp only [condFinish, typedBinds, typedFrags, List.length_nil, ↓reduceIte, ← advance_succ,
    List.nil_append, List.append_assoc]
  rw [foldl_condTypedStep post]
  have hadv := advance_add m.ParamsIndex (pre.length + 1) post.length
  simp [hadv]

/-- C8, instance: the empty sequence under the key id, on the reset model, binds one empty
string and yields the equality fragment with the first placeholder. -/
theorem getSQLCond_empty_sequence_instance :
    getSQLCond { emptyModel with Cond := CondValue.typed [("id", Any.strs [])] } =
      (" WHERE id=$1",
        { emptyModel with
          Cond := CondValue.typed [("id", Any.strs [])], Scan := [Any.str ""], ParamsIndex := 2 }) :=
  getSQLCond_empty_sequence emptyModel [] [] "id"

theorem threaded_placeholder_range (p : Int) (l : List (String × String))
    (hlo : -9223372036854775808 ≤ p) (hhi : p + l.length < 9223372036854775808) :
    threaded (fun q (_ : String × String) => placeholder q) p l =
      (List.range l.length).map (fun (i : Nat) => placeholder (p + (i : Int))) := by
  apply List.ext_getElem?
  intro i
  rw [threaded_getElem?]
  by_cases hi : i < l.length
  · rw [List.getElem?_eq_getElem hi, List.getElem?_map,
      List.getElem?_eq_getElem (by simpa using hi)]
    simp only [Option.map_some', List.getElem_range]
    rw [advance_eq_add p i hlo (by omega)]
  · simp only [not_lt] at hi
    rw [List.getElem?_eq_none hi, List.getElem?_eq_none (by simpa using hi)]
    rfl

/-- C9: for an insert mapping with entries (c1,v1)...(cn,vn) in iteration order and a cursor
p that the n increments keep within the 64-bit range, getSQLInsert returns the column list
c1,...,cn and the value list of the placeholders numbered p,...,p+n-1, appends v1,...,vn to
Scan in that order and leaves the cursor at p+n; when p is the number of bound values plus
one, the placeholder listed with the i-th column denotes the bound value vi. -/
theorem getSQLInsert_spec (m : Model) (hlo : -9223372036854775808 ≤ m.ParamsIndex)
    (hhi : m.ParamsIndex + m.Insert.length < 9223372036854775808) :
    getSQLInsert m =
        ("(" ++ stringsJoin (m.Insert.map Prod.fst) "," ++ ") values ("
            ++ stringsJoin ((List.range m.Insert.length).map
                (fun (i : Nat) => placeholder (m.ParamsIndex + (i : Int)))) "," ++ ")",
          { m with
            Scan := m.Scan ++ m.Insert.map (fun e => Any.str e.2),
            ParamsIndex := m.ParamsIndex + m.Insert.length })
      ∧ (m.ParamsIndex = m.Scan.length + 1 →
          ∀ i : Nat, i < m.Insert.length →
            (getSQLInsert m).2.Scan[(m.ParamsIndex + i - 1).toNat]?
              = (m.Insert[i]?).map (fun e => Any.str e.2)) := by
  have hval : getSQLInsert m =
        ("(" ++ stringsJoin (m.Insert.map Prod.fst) "," ++ ") values ("
            ++ stringsJoin ((List.range m.Insert.length).map
                (fun (i : Nat) => placeholder (m.ParamsIndex + (i : Int)))) "," ++ ")",
          { m with
            Scan := m.Scan ++ m.Insert.map (fun e => Any.str e.2),
            ParamsIndex := m.ParamsIndex + m.Insert.length }) := by
    simp only [getSQLInsert, foldl_insertStep, List.nil_append]
    rw [threaded_placeholder_range m.ParamsIndex m.Insert hlo hhi,
      advance_eq_add m.ParamsIndex m.Insert.length hlo hhi]
  refine ⟨hval, ?_⟩
  intro hp i hi
  rw [hval]
  have hidx : (m.ParamsIndex + i - 1).toNat = m.Scan.length + i := by
    rw [hp]
    omega
  simp only [hidx]
  rw [List.getElem?_append_right (by omega)]
  simp

/-- C9, witness: the two-entry insert mapping a, b on the reset model. -/
theorem getSQLInsert_spec_witness :
    getSQLInsert { emptyModel with Insert := [("a", "1"), ("b", "2")] } =
      ("(a,b) values ($1,$2)",
        { emptyModel with
          Insert := [("a", "1"), ("b", "2")], Scan := [Any.str "1", Any.str "2"],
          ParamsIndex := 3 }) :=
  (getSQLInsert_spec { emptyModel with Insert := [("a", "1"), ("b", "2")] }
    (by decide) (by decide)).1

/-- C10: for a batch with first row `first` and further rows `rest`, getSQLInsertArr lists
the keys of the first row in the order of their one traversal and emits one tuple per row,
in row order; for every row it binds, column by column in that same order, the row's value
under each first-row key, the empty string when the row lacks the key; nothing else is
listed or bound, and the first row binds its own values when its keys are distinct. -/
theorem getSQLInsertArr_columns (m : Model) (first : List (String × String))
    (rest : List (List (String × String))) :
    ∃ tuples : List String,
      getSQLInsertArr { m with InsertArr := first :: rest } =
        some ("(" ++ stringsJoin (first.map Prod.fst) "," ++ ")" ++ " values "
            ++ stringsJoin tuples ",",
          { m with
            InsertArr := first :: rest,
            Scan := m.Scan ++ ((first :: rest).map (fun row =>
              (first.map Prod.fst).map (fun c => Any.str (mapGet row c)))).flatten,
            ParamsIndex := advance m.ParamsIndex (rest.length + 1) })
      ∧ (∀ i : Nat, tuples[i]? = ((first :: rest)[i]?).map (fun _ =>
          "(" ++ stringsJoin (List.replicate first.length
            (placeholder (advance m.ParamsIndex i))) "," ++ ")"))
      ∧ (∀ (row : List (String × String)) (c : String),
          c ∉ row.map Prod.fst → mapGet row c = "")
      ∧ ((first.map Prod.fst).Nodup →
          (first.map Prod.fst).map (fun c => Any.str (mapGet first c))
            = first.map (fun e => Any.str e.2)) := by
  refine ⟨threaded (fun p _ => "(" ++ stringsJoin (List.replicate first.length (placeholder p)) ","
    ++ ")") m.ParamsIndex (first :: rest), ?_, ?_, ?_, ?_⟩
  · simp only [getSQLInsertArr, foldl_fieldArr, foldl_insertArrRow, List.nil_append,
      List.length_map, List.length_cons]
  · intro i
    rw [threaded_getElem?]
  · exact mapGet_of_not_mem
  · intro hnd
    have := map_mapGet_self first hnd
    calc (first.map Prod.fst).map (fun c => Any.str (mapGet first c))
        = ((first.map Prod.fst).map (fun c => mapGet first c)).map Any.str := by
          simp [List.map_map]
      _ = (first.map Prod.snd).map Any.str := by rw [this]
      _ = first.map (fun e => Any.str e.2) := by simp [List.map_map]

/-- C10, witness: a second row that lacks the key b and carries an extra key c. -/
theorem getSQLInsertArr_columns_witness :
    (getSQLInsertArr { emptyModel with
        InsertArr := [[("a", "1"), ("b", "2")], [("c", "9"), ("a", "3")]] }).map
      (fun r => r.2.Scan) = some [Any.str "1", Any.str "2", Any.str "3", Any.str ""] := by
  obtain ⟨tuples, h, -⟩ := getSQLInsertArr_columns emptyModel [("a", "1"), ("b", "2")]
    [[("c", "9"), ("a", "3")]]
  rw [h]
  rfl

/-- C7, witness: a flat mapping with an operator key and a plain key, on the reset model. -/
theorem getSQLCond_flat_mapping_witness :
    ∃ frags : List String,
      getSQLCond { emptyModel with Cond := CondValue.flat [("age>", "30"), ("name", "x")] } =
        (" WHERE " ++ stringsJoin frags " && ",
          { emptyModel with
            Cond := CondValue.flat [("age>", "30"), ("name", "x")],
            Scan := [Any.str "30", Any.str "x"], ParamsIndex := 3 })
      ∧ frags[0]? = some "age> $1" ∧ frags[1]? = some "name=$2" ∧ frags[2]? = none := by
  obtain ⟨frags, h, hf, -⟩ :=
    getSQLCond_flat_mapping emptyModel [("age>", "30"), ("name", "x")]
  exact ⟨frags, h, (hf 0).trans (by rfl), (hf 1).trans (by rfl), (hf 2).trans (by rfl)⟩

theorem threaded_map {α β γ : Type} (f : Int → α → β) (g : β → γ) (p : Int) (l : List α) :
    (threaded f p l).map g = threaded (fun q a => g (f q a)) p l := by
  induction l generalizing p with
  | nil => rfl
  | cons a rest ih => simp [threaded, ih]

theorem mem_threaded {α β : Type} (f : Int → α → β) (p : Int) (l : List α) (b : β)
    (h : b ∈ threaded f p l) : ∃ q a, b = f q a := by
  induction l generalizing p with
  | nil => simp [threaded] at h
  | cons a rest ih =>
    simp only [threaded, List.mem_cons] at h
    rcases h with h | h
    · exact ⟨p, a, h⟩
    · exact ih (incr p) h

/-- C11, the claim fails: a batch whose second row carries the extra key c and whose third
row lacks the key b lists two columns, and every one of its three tuples holds two
placeholders while two values are bound per row (six in all); no count differs. -/
theorem heterogeneous_batch_counts_agree :
    getSQLInsertArr { emptyModel with
        InsertArr := [[("a", "1"), ("b", "2")], [("a", "3"), ("b", "4"), ("c", "9")],
          [("a", "5")]] } =
        some ("(" ++ stringsJoin ["a", "b"] "," ++ ")" ++ " values "
            ++ stringsJoin ["($1,$1)", "($2,$2)", "($3,$3)"] ",",
          { emptyModel with
            InsertArr := [[("a", "1"), ("b", "2")], [("a", "3"), ("b", "4"), ("c", "9")],
              [("a", "5")]],
            Scan := [Any.str "1", Any.str "2", Any.str "3", Any.str "4", Any.str "5", Any.str ""],
            ParamsIndex := 4 })
      ∧ (∀ t ∈ ["($1,$1)", "($2,$2)", "($3,$3)"],
          (placeholdersIn (String.data t)).length = ["a", "b"].length)
      ∧ [Any.str "1", Any.str "2", Any.str "3", Any.str "4", Any.str "5", Any.str ""].length
          = 3 * ["a", "b"].length := by
  refine ⟨by rfl, by decide, by rfl⟩

/-- C11, amended: for every non-empty batch, whatever the key sets of its rows,
getSQLInsertArr emits one tuple per row and every tuple holds exactly as many placeholders
as columns are listed, and exactly that many values are bound for every row: an extra key
is ignored, a missing key binds the empty string, no count is mismatched. -/
theorem getSQLInsertArr_counts_agree (m : Model) (first : List (String × String))
    (rest : List (List (String × String))) :
    ∃ (tuples : List (List String)) (binds : List (List Any)),
      getSQLInsertArr { m with InsertArr := first :: rest } =
        some ("(" ++ stringsJoin (first.map Prod.fst) "," ++ ")" ++ " values "
            ++ stringsJoin (tuples.map (fun t => "(" ++ stringsJoin t "," ++ ")")) ",",
          { m with
            InsertArr := first :: rest,
            Scan := m.Scan ++ binds.flatten,
            ParamsIndex := advance m.ParamsIndex (rest.length + 1) })
      ∧ tuples.length = rest.length + 1
      ∧ binds.length = rest.length + 1
      ∧ (∀ t ∈ tuples, t.length = (first.map Prod.fst).length ∧ ∃ q, ∀ s ∈ t, s = placeholder q)
      ∧ (∀ b ∈ binds, b.length = (first.map Prod.fst).length) := by
  refine ⟨threaded (fun p _ => List.replicate first.length (placeholder p)) m.ParamsIndex
      (first :: rest),
    (first :: rest).map (fun row => (first.map Prod.fst).map (fun c => Any.str (mapGet row c))),
    ?_, ?_, ?_, ?_, ?_⟩
  · simp only [getSQLInsertArr, foldl_fieldArr, foldl_insertArrRow, List.nil_append,
      List.length_map, List.length_cons, threaded_map]
  · simp [threaded_length]
  · simp
  · intro t ht
    obtain ⟨q, _, hq⟩ := mem_threaded _ _ _ t ht
    subst hq
    refine ⟨by simp, q, ?_⟩
    intro s hs
    exact (List.mem_replicate.mp hs).2
  · intro b hb
    simp only [List.mem_map] at hb
    obtain ⟨row, _, hrow⟩ := hb
    subst hrow
    simp

/-- C12: with no rows in the batch, getSQLInsertArr indexes the first row of an empty
slice and panics; ExecInsertBatch therefore returns nothing at all, neither an error value
nor a result, whatever the collaborator. -/
theorem ExecInsertBatch_empty_batch (d : Driver) :
    getSQLInsertArr { emptyModel with Table := "t" } = none
      ∧ ExecInsertBatch d { emptyModel with Table := "t" } = none := by
  refine ⟨by rfl, by rfl⟩

theorem threaded_index {α β : Type} (f : Int → α → β) (p : Int) (l : List α) (i : Nat)
    (hlo : -9223372036854775808 ≤ p) (hhi : p + l.length < 9223372036854775808) :
    (threaded f p l)[i]? = (l[i]?).map (f (p + i)) := by
  rw [threaded_getElem?]
  by_cases hi : i < l.length
  · rw [advance_eq_add p i hlo (by omega)]
  · simp only [not_lt] at hi
    rw [List.getElem?_eq_none hi]
    rfl

/-- C13: for an update mapping with entries (c1,v1)...(cn,vn) in iteration order and a
cursor p that the n increments keep within the 64-bit range, getSQLUpdate returns the
fragments "ci"=placeholder numbered p+i-1, each column double-quoted, joined by commas,
appends v1,...,vn to Scan in that order and leaves the cursor at p+n. -/
theorem getSQLUpdate_spec (m : Model) (hlo : -9223372036854775808 ≤ m.ParamsIndex)
    (hhi : m.ParamsIndex + m.Update.length < 9223372036854775808) :
    ∃ frags : List String,
      getSQLUpdate m =
        (stringsJoin frags ",",
          { m with
            Scan := m.Scan ++ m.Update.map (fun e => Any.str e.2),
            ParamsIndex := m.ParamsIndex + m.Update.length })
      ∧ ∀ i : Nat, frags[i]? = (m.Update[i]?).map (fun e =>
          "\"" ++ e.1 ++ "\"=" ++ placeholder (m.ParamsIndex + (i : Int))) := by
  refine ⟨threaded (fun p e => "\"" ++ e.1 ++ "\"=" ++ placeholder p) m.ParamsIndex m.Update,
    ?_, ?_⟩
  · simp only [getSQLUpdate, foldl_updateStep, List.nil_append]
    rw [advance_eq_add m.ParamsIndex m.Update.length hlo hhi]
  · intro i
    exact threaded_index _ m.ParamsIndex m.Update i hlo hhi

/-- C13, witness: the two-entry update mapping a, b on the reset model. -/
theorem getSQLUpdate_spec_witness :
    ∃ frags : List String,
      getSQLUpdate { emptyModel with Update := [("a", "1"), ("b", "2")] } =
        (stringsJoin frags ",",
          { emptyModel with
            Update := [("a", "1"), ("b", "2")], Scan := [Any.str "1", Any.str "2"],
            ParamsIndex := 3 })
      ∧ frags[0]? = some "\"a\"=$1" ∧ frags[1]? = some "\"b\"=$2" ∧ frags[2]? = none := by
  obtain ⟨frags, h, hf⟩ :=
    getSQLUpdate_spec { emptyModel with Update := [("a", "1"), ("b", "2")] }
      (by decide) (by decide)
  exact ⟨frags, h, (hf 0).trans (by rfl), (hf 1).trans (by rfl), (hf 2).trans (by rfl)⟩

theorem lookup_mapSet {α : Type} (row : List (String × α)) (name : String) (value : α)
    (k : String) :
    (mapSet row name value).lookup k = if k = name then some value else row.lookup k := by
  induction row with
  | nil =>
    by_cases h : k = name
    · simp [mapSet, List.lookup, h]
    · have hne : (k == name) = false := by simpa using h
      simp [mapSet, List.lookup, h, hne]
  | cons e rest ih =>
    obtain ⟨k1, v1⟩ := e
    by_cases h1 : k1 = name
    · subst h1
      by_cases h : k = k1
      · simp [mapSet, List.lookup, h]
      · have hne : (k == k1) = false := by simpa using h
        simp [mapSet, List.lookup, h, hne]
    · by_cases hk : k = k1
      · subst hk
        simp [mapSet, List.lookup, h1]
      · have hne : (k == k1) = false := by simpa using hk
        simp only [mapSet, h1, ↓reduceIte, List.lookup, hne, ih]

theorem keys_mapSet {α : Type} (row : List (String × α)) (name : String) (value : α) :
    (mapSet row name value).map Prod.fst =
      if name ∈ row.map Prod.fst then row.map Prod.fst else row.map Prod.fst ++ [name] := by
  induction row with
  | nil => simp [mapSet]
  | cons e rest ih =>
    obtain ⟨k1, v1⟩ := e
    by_cases h1 : k1 = name
    · subst h1
      simp [mapSet]
    · have h2 : ¬ name = k1 := fun h => h1 h.symm
      simp only [mapSet, h1, ↓reduceIte, List.map_cons, ih, List.mem_cons, h2, false_or]
      split <;> simp

theorem nodup_keys_mapSet {α : Type} (row : List (String × α)) (name : String) (value : α)
    (h : (row.map Prod.fst).Nodup) : ((mapSet row name value).map Prod.fst).Nodup := by
  rw [keys_mapSet]
  split
  · exact h
  · rename_i hn
    exact List.Nodup.append h (List.nodup_singleton name) (by simpa using hn)

theorem lookup_foldl_indexStep (index : String) (rs : List (List (String × String)))
    (acc : List (String × List (String × String))) (k : String) :
    (rs.foldl (indexStep index) acc).lookup k =
      if k = "" then acc.lookup k
      else (rs.reverse.find? (fun r => mapGet r index == k)).or (acc.lookup k) := by
  induction rs generalizing acc with
  | nil => by_cases h : k = "" <;> simp [h]
  | cons r rest ih =>
    rw [List.foldl_cons, ih]
    by_cases hk : k = ""
    · simp only [hk, ↓reduceIte, indexStep]
      split
      · rfl
      · rename_i hne
        rw [lookup_mapSet]
        have : ¬ "" = mapGet r index := fun h => hne h.symm
        simp [this]
    · simp only [hk, ↓reduceIte, List.reverse_cons, List.find?_append]
      cases hfind : List.find? (fun r => mapGet r index == k) rest.reverse with
      | some r1 => simp
      | none =>
        simp only [Option.none_or, List.find?_singleton, Option.or]
        by_cases hr : mapGet r index = k
        · have hne : ¬ mapGet r index = "" := fun h => hk (hr ▸ h)
          simp [indexStep, hne, lookup_mapSet, hr, hk]
        · have hr2 : ¬ k = mapGet r index := fun h => hr h.symm
          have hb : (mapGet r index == k) = false := by simpa using hr
          simp only [hb, indexStep]
          split
          · simp
          · simp [lookup_mapSet, hr2]

theorem nodup_foldl_indexStep (index : String) (rs : List (List (String × String)))
    (acc : List (String × List (String × String))) (h : (acc.map Prod.fst).Nodup) :
    ((rs.foldl (indexStep index) acc).map Prod.fst).Nodup := by
  induction rs generalizing acc with
  | nil => exact h
  | cons r rest ih =>
    rw [List.foldl_cons]
    apply ih
    unfold indexStep
    split
    · exact h
    · exact nodup_keys_mapSet acc _ r h

theorem mem_keys_iff_lookup {α : Type} (row : List (String × α)) (k : String) :
    k ∈ row.map Prod.fst ↔ (row.lookup k).isSome = true := by
  induction row with
  | nil => simp
  | cons e rest ih =>
    obtain ⟨k1, v1⟩ := e
    by_cases hk : k = k1
    · subst hk
      simp [List.lookup]
    · have hne : (k == k1) = false := by simpa using hk
      simp [List.lookup, hne, hk, ← ih]

theorem execSelect_index (d : Driver) (m : Model) (r : List (List (String × String)) × Option String)
    (m1 : Model) (h : execSelect d m = some (r, m1)) : m1.Index = m.Index := by
  unfold execSelect at h
  simp only at h
  split at h
  · exact absurd h (by simp)
  · split at h
    · exact absurd h (by simp)
    · simp only [Option.some.injEq, Prod.mk.injEq] at h
      rw [← h.2, getSQLCond_model]

/-- C14: the loop of ExecSelectIndex turns any decoded row sequence into a mapping with
distinct keys whose key set is exactly the non-empty index-column values of the rows, each
key mapped to the last row carrying that value; rows whose index column is the empty
string, or absent, contribute nothing. ExecSelectIndex returns that mapping, built from the
rows execSelect decoded and the index column of the model, together with the error of
execSelect. -/
theorem ExecSelectIndex_last_write_wins (d : Driver) (m : Model) :
    (∀ (index : String) (rs : List (List (String × String))),
        ((rs.foldl (indexStep index) []).map Prod.fst).Nodup
          ∧ (∀ k : String, k ∈ (rs.foldl (indexStep index) []).map Prod.fst ↔
              (k ≠ "" ∧ ∃ r ∈ rs, mapGet r index = k))
          ∧ (∀ k : String, (rs.foldl (indexStep index) []).lookup k =
              if k = "" then none else rs.reverse.find? (fun r => mapGet r index == k)))
      ∧ ExecSelectIndex d m =
        (execSelect d m).map (fun r =>
          ((r.1.1.foldl (indexStep m.Index) [], r.1.2), Clean r.2)) := by
  have hlook : ∀ (index : String) (rs : List (List (String × String))) (k : String),
      (rs.foldl (indexStep index) []).lookup k =
        if k = "" then none else rs.reverse.find? (fun r => mapGet r index == k) := by
    intro index rs k
    rw [lookup_foldl_indexStep]
    by_cases hk : k = "" <;> simp [hk, List.lookup]
  refine ⟨?_, ?_⟩
  · intro index rs
    refine ⟨nodup_foldl_indexStep index rs [] (by simp), ?_, hlook index rs⟩
    intro k
    rw [mem_keys_iff_lookup, hlook]
    by_cases hk : k = ""
    · simp [hk]
    · simp only [hk, ↓reduceIte, ne_eq, not_false_eq_true, true_and, List.find?_isSome,
        List.mem_reverse, beq_iff_eq]
  · unfold ExecSelectIndex
    cases hs : execSelect d m with
    | none => rfl
    | some r =>
      obtain ⟨r1, m1⟩ := r
      simp only [Option.map_some', execSelect_index d m r1 m1 hs]

/-- C14, witness: three decoded rows indexed by the column id; the first and the last share
the value 7 and the second has an empty id. -/
theorem ExecSelectIndex_last_write_wins_witness :
    ExecSelectIndex
        (replyDriver (QueryReply.rows ["id", "n"]
          [RowScan.ok [Scanned.text "7", Scanned.text "first"],
            RowScan.ok [Scanned.null, Scanned.text "dropped"],
            RowScan.ok [Scanned.text "7", Scanned.text "last"]]))
        { emptyModel with Table := "t", Index := "id" } =
      some (([("7", [("id", "7"), ("n", "last")])], none), emptyModel) :=
  ((ExecSelectIndex_last_write_wins _ _).2).trans (by rfl)

/-- Beyond the limit of one row: were a collaborator to answer the statement of
ExecSelectOne with two rows, the first decodable and the second failing its scan,
ExecSelect would return the one-row sequence with the scan error and ExecSelectOne the
first row with a nil error. With an execution error and no row, ExecSelectOne returns the
error. -/
theorem ExecSelectOne_two_row_reply :
    ExecSelect
        (replyDriver (QueryReply.rows ["id"]
          [RowScan.ok [Scanned.text "1"], RowScan.fail "scan failed"]))
        { emptyModel with Table := "t", Limit := LimitValue.pair 0 1 } =
        some (([[("id", "1")]], some "scan failed"), emptyModel)
      ∧ ExecSelectOne
        (replyDriver (QueryReply.rows ["id"]
          [RowScan.ok [Scanned.text "1"], RowScan.fail "scan failed"]))
        { emptyModel with Table := "t" } =
        some (([("id", "1")], none), emptyModel)
      ∧ ExecSelectOne (replyDriver (QueryReply.error "connection refused"))
        { emptyModel with Table := "t" } =
        some (([], some "connection refused"), emptyModel) := by
  refine ⟨by rfl, by rfl, by rfl⟩

theorem decodeCell_fixed_width (result : List (String × String)) (name : String) (k : IntKind)
    (hk : k ≠ IntKind.platform) (i : Int) (n : Nat) :
    decodeCell result name (Scanned.sint k i) = some (mapSet result name (toString i))
      ∧ decodeCell result name (Scanned.uint k n) = some (mapSet result name (toString n)) := by
  cases k with
  | platform => exact absurd rfl hk
  | w8 => exact ⟨rfl, rfl⟩
  | w16 => exact ⟨rfl, rfl⟩
  | w32 => exact ⟨rfl, rfl⟩
  | w64 => exact ⟨rfl, rfl⟩

/-- C16: a row with a platform-width signed integer, a platform-width unsigned integer and
a 64-bit integer, all of value 5: only the 64-bit column gets a key; the two
platform-width columns are left out of the Row Result, through the decoder and through
the query method alike. -/
theorem platform_width_integers_omitted :
    decodeCell [] "a" (Scanned.sint IntKind.platform 5) = some []
      ∧ decodeCell [] "b" (Scanned.uint IntKind.platform 5) = some []
      ∧ decodeRow [("a", Scanned.sint IntKind.platform 5), ("b", Scanned.uint IntKind.platform 5),
          ("c", Scanned.sint IntKind.w64 5)] [] = some [("c", "5")]
      ∧ query
          (replyDriver (QueryReply.rows ["a", "b", "c"]
            [RowScan.ok [Scanned.sint IntKind.platform 5, Scanned.uint IntKind.platform 5,
              Scanned.sint IntKind.w64 5]]))
          emptyModel "SELECT * FROM t;" = some ([[("c", "5")]], none) := by
  refine ⟨by rfl, by rfl, by rfl, by rfl⟩

theorem decodeCell_uncategorised (result : List (String × String)) (name : String)
    (tag : Nat) :
    decodeCell result name (Scanned.slice tag) = some result
      ∧ decodeCell result name (Scanned.other tag) = some result
      ∧ decodeCell result name (Scanned.struct tag) = none :=
  ⟨rfl, rfl, rfl⟩

/-- C17: a row whose second column holds a struct that is not a timestamp. The type
assertion panics: the decoder yields nothing for the row, and query and ExecSelect return
nothing at all, rather than a row without that key. A non-byte slice or a value of another
kind in the same place is skipped and the row is decoded. -/
theorem non_timestamp_struct_panics :
    decodeRow [("id", Scanned.text "1"), ("price", Scanned.struct 0)] [] = none
      ∧ query
          (replyDriver (QueryReply.rows ["id", "price"]
            [RowScan.ok [Scanned.text "1", Scanned.struct 0]]))
          emptyModel "SELECT * FROM t;" = none
      ∧ ExecSelect
          (replyDriver (QueryReply.rows ["id", "price"]
            [RowScan.ok [Scanned.text "1", Scanned.struct 0]]))
          { emptyModel with Table := "t" } = none
      ∧ decodeRow [("id", Scanned.text "1"), ("tags", Scanned.slice 0)] [] = some [("id", "1")]
      ∧ decodeRow [("id", Scanned.text "1"), ("doc", Scanned.other 0)] [] = some [("id", "1")] := by
  refine ⟨by rfl, by rfl, by rfl, by rfl, by rfl⟩

theorem decodeRow_append (pre post : List (String × Scanned)) (name : String) (v : Scanned)
    (result : List (String × String)) :
    decodeRow (pre ++ (name, v) :: post) result =
      (decodeRow pre result).bind (fun r => (decodeCell r name v).bind (decodeRow post)) := by
  induction pre generalizing result with
  | nil =>
    simp only [List.nil_append, decodeRow, Option.some_bind]
    cases decodeCell result name v <;> rfl
  | cons e rest ih =>
    obtain ⟨n1, v1⟩ := e
    simp only [List.cons_append, decodeRow]
    cases decodeCell result n1 v1 with
    | none => rfl
    | some r1 => exact ih r1

theorem decodeCell_lookup_other (result r : List (String × String)) (name k : String)
    (v : Scanned) (h : decodeCell result name v = some r) (hk : k ≠ name) :
    r.lookup k = result.lookup k := by
  have hset : ∀ x : String, (mapSet result name x).lookup k = result.lookup k := by
    intro x
    rw [lookup_mapSet]
    simp [hk]
  cases v with
  | struct tag => simp [decodeCell] at h
  | namedBytes b => simp [decodeCell] at h
  | sint w i =>
    cases w <;> simp only [decodeCell, Option.some.injEq] at h <;> subst h <;>
      first | rfl | exact hset _
  | uint w n =>
    cases w <;> simp only [decodeCell, Option.some.injEq] at h <;> subst h <;>
      first | rfl | exact hset _
  | null => simp only [decodeCell, Option.some.injEq] at h; subst h; exact hset _
  | float t => simp only [decodeCell, Option.some.injEq] at h; subst h; exact hset _
  | bytes b => simp only [decodeCell, Option.some.injEq] at h; subst h; exact hset _
  | slice t => simp only [decodeCell, Option.some.injEq] at h; subst h; rfl
  | text t => simp only [decodeCell, Option.some.injEq] at h; subst h; exact hset _
  | time t => simp only [decodeCell, Option.some.injEq] at h; subst h; exact hset _
  | bool b => simp only [decodeCell, Option.some.injEq] at h; subst h; exact hset _
  | other t => simp only [decodeCell, Option.some.injEq] at h; subst h; rfl

theorem decodeRow_lookup_other (post : List (String × Scanned)) (r row : List (String × String))
    (k : String) (h : decodeRow post r = some row) (hk : k ∉ post.map Prod.fst) :
    row.lookup k = r.lookup k := by
  induction post generalizing r with
  | nil =>
    simp only [decodeRow, Option.some.injEq] at h
    rw [h]
  | cons e rest ih =>
    obtain ⟨n1, v1⟩ := e
    simp only [List.map_cons, List.mem_cons, not_or] at hk
    simp only [decodeRow] at h
    cases hc : decodeCell r n1 v1 with
    | none => simp [hc] at h
    | some r1 =>
      simp only [hc] at h
      rw [ih r1 h hk.2]
      exact decodeCell_lookup_other r r1 n1 k v1 hc hk.1

/-- For every column name and every Row Result built so far, the decoder writes the empty
string for a null value, 1 for true, 0 for false, the text itself for a text value and the
bytes as text for a value of type []byte, and the written value is what the key then holds. In
a row that decodes, a column no later column shares its name with ends up holding that
value; and a row with a null column decodes to exactly what the same row with an empty text
in that column decodes to. -/
theorem decoder_canonical_values (result : List (String × String)) (name : String) :
    decodeCell result name Scanned.null = some (mapSet result name "")
      ∧ decodeCell result name (Scanned.bool true) = some (mapSet result name "1")
      ∧ decodeCell result name (Scanned.bool false) = some (mapSet result name "0")
      ∧ (∀ s : String, decodeCell result name (Scanned.text s) = some (mapSet result name s))
      ∧ (∀ s : String, decodeCell result name (Scanned.bytes s) = some (mapSet result name s))
      ∧ (∀ x : String, (mapSet result name x).lookup name = some x)
      ∧ (∀ (pre post : List (String × Scanned)) (v : Scanned) (x : String)
          (row : List (String × String)),
          name ∉ post.map Prod.fst →
          decodeRow (pre ++ (name, v) :: post) result = some row →
          (v = Scanned.null ∧ x = "" ∨ v = Scanned.bool true ∧ x = "1"
            ∨ v = Scanned.bool false ∧ x = "0" ∨ v = Scanned.text x ∨ v = Scanned.bytes x) →
          row.lookup name = some x)
      ∧ (∀ pre post : List (String × Scanned),
          decodeRow (pre ++ (name, Scanned.null) :: post) result =
            decodeRow (pre ++ (name, Scanned.text "") :: post) result) := by
  refine ⟨rfl, rfl, rfl, fun _ => rfl, fun _ => rfl, ?_, ?_, ?_⟩
  · intro x
    rw [lookup_mapSet]
    simp
  · intro pre post v x row hpost hrow hv
    rw [decodeRow_append] at hrow
    cases hpre : decodeRow pre result with
    | none => simp [hpre] at hrow
    | some r0 =>
      simp only [hpre, Option.some_bind] at hrow
      have hcell : decodeCell r0 name v = some (mapSet r0 name x) := by
        rcases hv with ⟨h1, h2⟩ | ⟨h1, h2⟩ | ⟨h1, h2⟩ | h1 | h1
        · subst h1; subst h2; rfl
        · subst h1; subst h2; rfl
        · subst h1; subst h2; rfl
        · subst h1; rfl
        · subst h1; rfl
      simp only [hcell, Option.some_bind] at hrow
      rw [decodeRow_lookup_other post _ row name hrow hpost, lookup_mapSet]
      simp
  · intro pre post
    rw [decodeRow_append, decodeRow_append]
    rfl

/-- A row with a null, a true, a false, a text and a []byte column; the column a, null, and
the column f, an empty text, hold the same value. -/
theorem decoder_canonical_values_example :
    decodeRow [("a", Scanned.null), ("b", Scanned.bool true), ("c", Scanned.bool false),
        ("d", Scanned.text "x"), ("e", Scanned.bytes "yz"), ("f", Scanned.text "")] [] =
        some [("a", ""), ("b", "1"), ("c", "0"), ("d", "x"), ("e", "yz"), ("f", "")]
      ∧ List.lookup "a" [("a", ""), ("b", "1"), ("c", "0"), ("d", "x"), ("e", "yz"), ("f", "")]
        = some "" :=
  ⟨by rfl,
    (decoder_canonical_values [] "a").2.2.2.2.2.2.1 []
      [("b", Scanned.bool true), ("c", Scanned.bool false), ("d", Scanned.text "x"),
        ("e", Scanned.bytes "yz"), ("f", Scanned.text "")]
      Scanned.null "" _ (by decide) (by rfl) (Or.inl ⟨rfl, rfl⟩)⟩

theorem typed_unbound (p : Int) (e : String × Any) (h : isStringOrStrings e.2 = false) :
    typedBinds e = [] ∧ typedFrags p e = [] := by
  obtain ⟨k, v⟩ := e
  cases v with
  | str s => simp [isStringOrStrings] at h
  | strs l => simp [isStringOrStrings] at h
  | int i => exact ⟨rfl, rfl⟩
  | other t => exact ⟨rfl, rfl⟩

theorem foldl_condTypedStep_unbound (es : List (String × Any)) (st : Acc)
    (hall : ∀ e ∈ es, isStringOrStrings e.2 = false) :
    es.foldl condTypedStep st = { st with ParamsIndex := advance st.ParamsIndex es.length } := by
  induction es generalizing st with
  | nil => rfl
  | cons e rest ih =>
    rw [List.foldl_cons, ih _ (fun x hx => hall x (List.mem_cons_of_mem _ hx)), condTypedStep_eq,
      (typed_unbound st.ParamsIndex e (hall e (List.mem_cons_self _ _))).1,
      (typed_unbound st.ParamsIndex e (hall e (List.mem_cons_self _ _))).2]
    simp [advance]

theorem getSQLCond_all_unbound (m : Model) (es : List (String × Any))
    (hc : m.Cond = CondValue.typed es) (hall : ∀ e ∈ es, isStringOrStrings e.2 = false) :
    getSQLCond m = ("", { m with ParamsIndex := advance m.ParamsIndex es.length }) := by
  simp only [getSQLCond, hc, foldl_condTypedStep_unbound es _ hall, condFinish,
    List.length_nil, ↓reduceIte]

/-- C19: in a typed mapping, an entry whose value is neither a string nor a sequence of
strings adds no fragment and no bound value, and the entries after it are compiled from the
cursor advanced by one more step: the clause holds the fragments and bound values of the
entries before and after only. When every entry is of that kind the clause is the empty
text, the bound values are unchanged and the cursor has moved once per entry; ExecDelete
and ExecUpdate then execute a statement without WHERE. -/
theorem unbound_typed_value (d : Driver) (m : Model) :
    (∀ (pre post : List (String × Any)) (k : String) (v : Any), isStringOrStrings v = false →
        getSQLCond { m with Cond := CondValue.typed (pre ++ (k, v) :: post) } =
          (if (pre.foldl condTypedStep
                  { Scan := [], ParamsIndex := m.ParamsIndex, strArr := [] }).strArr
                ++ (post.foldl condTypedStep
                  { Scan := [], ParamsIndex := advance m.ParamsIndex (pre.length + 1),
                    strArr := [] }).strArr = []
            then ""
            else " WHERE " ++ stringsJoin
              ((pre.foldl condTypedStep
                  { Scan := [], ParamsIndex := m.ParamsIndex, strArr := [] }).strArr
                ++ (post.foldl condTypedStep
                  { Scan := [], ParamsIndex := advance m.ParamsIndex (pre.length + 1),
                    strArr := [] }).strArr) " && ",
            { m with
              Cond := CondValue.typed (pre ++ (k, v) :: post),
              Scan := m.Scan
                ++ (pre.foldl condTypedStep
                    { Scan := [], ParamsIndex := m.ParamsIndex, strArr := [] }).Scan
                ++ (post.foldl condTypedStep
                    { Scan := [], ParamsIndex := advance m.ParamsIndex (pre.length + 1),
                      strArr := [] }).Scan,
              ParamsIndex := advance m.ParamsIndex (pre.length + 1 + post.length) }))
      ∧ (∀ es : List (String × Any), (∀ e ∈ es, isStringOrStrings e.2 = false) →
          getSQLCond { m with Cond := CondValue.typed es } =
              ("", { m with
                Cond := CondValue.typed es,
                ParamsIndex := advance m.ParamsIndex es.length })
            ∧ (ExecDelete d { m with Cond := CondValue.typed es }).1 =
              d.Exec (handleOf m) ("DELETE FROM " ++ m.Table ++ ";") m.Scan
            ∧ (ExecUpdate d { m with Cond := CondValue.typed es }).1 =
              d.Exec (handleOf m)
                ("UPDATE " ++ m.Table ++ " SET " ++ (getSQLUpdate m).1 ++ ";")
                (getSQLUpdate m).2.Scan) := by
  refine ⟨?_, ?_⟩
  · intro pre post k v hv
    have hpre := foldl_condTypedStep pre { Scan := m.Scan, ParamsIndex := m.ParamsIndex, strArr := [] }
    have hpre0 := foldl_condTypedStep pre { Scan := [], ParamsIndex := m.ParamsIndex, strArr := [] }
    have hu := typed_unbound (advance m.ParamsIndex pre.length) (k, v) hv
    simp only [getSQLCond, List.foldl_append, List.foldl_cons]
    rw [hpre, condTypedStep_eq, foldl_condTypedStep_from post, hpre0]
    simp only [hu.1, hu.2, List.append_nil, ← advance_succ, List.nil_append]
    rw [foldl_condTypedStep post]
    simp only [condFinish, advance_add, List.nil_append, List.length_eq_zero, List.append_assoc]
    split <;> rfl
  · intro es hall
    have hcond := getSQLCond_all_unbound { m with Cond := CondValue.typed es } es rfl hall
    refine ⟨hcond, ?_, ?_⟩
    · simp only [ExecDelete, hcond, String.append_empty]
      rfl
    · have hup := getSQLCond_all_unbound (getSQLUpdate { m with Cond := CondValue.typed es }).2
        es rfl hall
      simp only [ExecUpdate, hup, String.append_empty]
      rfl

/-- C19, witness: the integer-valued entry of the mapping with keys age> and name. Visited
first it gives name the second ordinal; alone it gives the empty clause, and a delete on
table t runs without filter. -/
theorem unbound_typed_value_witness :
    getSQLCond { emptyModel with
        Cond := CondValue.typed [("age>", Any.int 30), ("name", Any.str "x")] } =
        (" WHERE name=$2",
          { emptyModel with
            Cond := CondValue.typed [("age>", Any.int 30), ("name", Any.str "x")],
            Scan := [Any.str "x"], ParamsIndex := 3 })
      ∧ getSQLCond { emptyModel with Cond := CondValue.typed [("age>", Any.int 30)] } =
        ("", { emptyModel with Cond := CondValue.typed [("age>", Any.int 30)], ParamsIndex := 2 })
      ∧ (ExecDelete probeDriver
          { emptyModel with Table := "t", Cond := CondValue.typed [("age>", Any.int 30)] }).1 =
        probeDriver.Exec Handle.pool "DELETE FROM t;" [] :=
  ⟨((unbound_typed_value probeDriver emptyModel).1 [] [("name", Any.str "x")] "age>"
      (Any.int 30) rfl).trans (by rfl),
    ((unbound_typed_value probeDriver emptyModel).2 [("age>", Any.int 30)]
      (by decide)).1,
    ((unbound_typed_value probeDriver { emptyModel with Table := "t" }).2
      [("age>", Any.int 30)] (by decide)).2.1⟩

theorem getSQLUpdate_closed (m : Model) :
    getSQLUpdate m =
      (stringsJoin (threaded (fun p e => "\"" ++ e.1 ++ "\"=" ++ placeholder p)
          m.ParamsIndex m.Update) ",",
        { m with
          Scan := m.Scan ++ m.Update.map (fun e => Any.str e.2),
          ParamsIndex := advance m.ParamsIndex m.Update.length }) := by
  simp only [getSQLUpdate, foldl_updateStep, List.nil_append]

theorem getSQLCond_strings (x : Model) (cs : List (String × String))
    (hc : x.Cond = CondValue.flat cs
      ∨ x.Cond = CondValue.typed (cs.map (fun e => (e.1, Any.str e.2)))) :
    getSQLCond x =
      (if cs = [] then ""
        else " WHERE " ++ stringsJoin
          (threaded (fun p e => condFragment e.1 (placeholder p)) x.ParamsIndex cs) " && ",
        { x with
          Scan := x.Scan ++ cs.map (fun e => Any.str e.2),
          ParamsIndex := advance x.ParamsIndex cs.length }) := by
  have hlen : (threaded (fun p (e : String × String) => condFragment e.1 (placeholder p))
      x.ParamsIndex cs).length = 0 ↔ cs = [] := by
    rw [threaded_length]
    exact List.length_eq_zero
  rcases hc with hc | hc
  · simp only [getSQLCond, hc, foldl_condFlatStep, condFinish, List.nil_append]
    by_cases h : cs = []
    · simp [h, threaded, advance]
    · simp [h, hlen]
  · simp only [getSQLCond, hc, foldl_condTypedStep_strs, foldl_condFlatStep, condFinish,
      List.nil_append]
    by_cases h : cs = []
    · simp [h, threaded, advance]
    · simp [h, hlen]

/-- C20: for a model whose cursor is the number of bound values plus one, whose condition
is a flat mapping (or a typed mapping of single strings) with entries cs, and whose cursor
stays within the 64-bit range, getSQLUpdate followed by getSQLCond numbers the SET
placeholders p,...,p+k-1 and the WHERE placeholders p+k,...,p+k+n-1; the final Scan is the
old one followed by the update values and the condition values, placeholder number j
denotes element j-1 of it, the cursor is again the number of bound values plus one, and
ExecUpdate executes exactly these two clauses with that Scan. getSQLInsert keeps the
invariant as well. -/
theorem update_then_cond_numbering (m : Model) (cs : List (String × String))
    (hc : m.Cond = CondValue.flat cs
      ∨ m.Cond = CondValue.typed (cs.map (fun e => (e.1, Any.str e.2))))
    (hinv : m.ParamsIndex = m.Scan.length + 1)
    (hhi : m.ParamsIndex + m.Update.length + cs.length < 9223372036854775808) :
    ∃ setFrags whereFrags : List String,
      (getSQLUpdate m).1 = stringsJoin setFrags ","
      ∧ (getSQLCond (getSQLUpdate m).2).1 =
          (if cs = [] then "" else " WHERE " ++ stringsJoin whereFrags " && ")
      ∧ (∀ i : Nat, setFrags[i]? = (m.Update[i]?).map (fun e =>
          "\"" ++ e.1 ++ "\"=" ++ placeholder (m.ParamsIndex + (i : Int))))
      ∧ (∀ i : Nat, whereFrags[i]? = (cs[i]?).map (fun e =>
          condFragment e.1 (placeholder (m.ParamsIndex + (m.Update.length : Int) + (i : Int)))))
      ∧ (getSQLCond (getSQLUpdate m).2).2.Scan =
          m.Scan ++ m.Update.map (fun e => Any.str e.2) ++ cs.map (fun e => Any.str e.2)
      ∧ (∀ i : Nat, i < m.Update.length →
          (getSQLCond (getSQLUpdate m).2).2.Scan[(m.ParamsIndex + (i : Int) - 1).toNat]? =
            (m.Update[i]?).map (fun e => Any.str e.2))
      ∧ (∀ i : Nat, i < cs.length →
          (getSQLCond (getSQLUpdate m).2).2.Scan[
              (m.ParamsIndex + (m.Update.length : Int) + (i : Int) - 1).toNat]? =
            (cs[i]?).map (fun e => Any.str e.2))
      ∧ (getSQLCond (getSQLUpdate m).2).2.ParamsIndex =
          ((getSQLCond (getSQLUpdate m).2).2.Scan.length : Int) + 1
      ∧ (∀ d : Driver, (ExecUpdate d m).1 =
          d.Exec (handleOf m)
            ("UPDATE " ++ m.Table ++ " SET " ++ stringsJoin setFrags ","
              ++ (if cs = [] then "" else " WHERE " ++ stringsJoin whereFrags " && ") ++ ";")
            (m.Scan ++ m.Update.map (fun e => Any.str e.2) ++ cs.map (fun e => Any.str e.2)))
      ∧ (m.ParamsIndex + m.Insert.length < 9223372036854775808 →
          (getSQLInsert m).2.ParamsIndex = ((getSQLInsert m).2.Scan.length : Int) + 1) := by
  have hlo : -9223372036854775808 ≤ m.ParamsIndex := by omega
  have hk : advance m.ParamsIndex m.Update.length = m.ParamsIndex + m.Update.length :=
    advance_eq_add _ _ hlo (by omega)
  have hu := getSQLUpdate_closed m
  have hcu : (getSQLUpdate m).2.Cond = CondValue.flat cs
      ∨ (getSQLUpdate m).2.Cond = CondValue.typed (cs.map (fun e => (e.1, Any.str e.2))) := by
    rw [hu]
    exact hc
  have hcond := getSQLCond_strings (getSQLUpdate m).2 cs hcu
  have hpu : (getSQLUpdate m).2.ParamsIndex = m.ParamsIndex + m.Update.length := by
    rw [hu]
    exact hk
  have hsu : (getSQLUpdate m).2.Scan = m.Scan ++ m.Update.map (fun e => Any.str e.2) := by
    rw [hu]
  have hn : advance (m.ParamsIndex + (m.Update.length : Int)) cs.length
      = m.ParamsIndex + m.Update.length + cs.length :=
    advance_eq_add _ _ (by omega) (by omega)
  have hscan : (getSQLCond (getSQLUpdate m).2).2.Scan =
      m.Scan ++ m.Update.map (fun e => Any.str e.2) ++ cs.map (fun e => Any.str e.2) := by
    rw [hcond, hsu]
  refine ⟨threaded (fun p e => "\"" ++ e.1 ++ "\"=" ++ placeholder p) m.ParamsIndex m.Update,
    threaded (fun p e => condFragment e.1 (placeholder p))
      (m.ParamsIndex + (m.Update.length : Int)) cs, ?_, ?_, ?_, ?_, hscan, ?_, ?_, ?_, ?_, ?_⟩
  · rw [hu]
  · rw [hcond, hpu]
  · intro i
    exact threaded_index _ m.ParamsIndex m.Update i hlo (by omega)
  · intro i
    exact threaded_index _ _ cs i (by omega) (by omega)
  · intro i hi
    have hidx : (m.ParamsIndex + (i : Int) - 1).toNat = m.Scan.length + i := by omega
    rw [hscan, hidx, List.getElem?_append_left (by simp; omega),
      List.getElem?_append_right (by omega)]
    simp
  · intro i hi
    have hidx : (m.ParamsIndex + (m.Update.length : Int) + (i : Int) - 1).toNat
        = m.Scan.length + m.Update.length + i := by omega
    rw [hscan, hidx, List.getElem?_append_right (by simp)]
    simp
  · rw [hscan, hcond]
    simp only [hpu, hn, List.length_append, List.length_map]
    push_cast
    omega
  · intro d
    have htab : (getSQLCond (getSQLUpdate m).2).2.Table = m.Table := by
      rw [getSQLCond_model, hu]
    have htx : handleOf (getSQLCond (getSQLUpdate m).2).2 = handleOf m := by
      rw [getSQLCond_model, hu]
      rfl
    simp only [ExecUpdate, htab, htx, hscan]
    rw [hcond, hpu, hu]
  · intro hins
    simp only [getSQLInsert, foldl_insertStep, List.length_append, List.length_map]
    rw [advance_eq_add _ _ hlo hins]
    push_cast
    omega

/-- C20, witness: an update of the columns a and b filtered by id and n> on the reset model
with table t: ordinals 1 and 2 in SET, 3 and 4 in WHERE, four bound values, cursor 5. -/
theorem update_then_cond_numbering_witness :
    ∃ setFrags whereFrags : List String,
      (getSQLUpdate { emptyModel with
          Table := "t", Update := [("a", "1"), ("b", "2")],
          Cond := CondValue.flat [("id", "7"), ("n>", "3")] }).1 = stringsJoin setFrags ","
      ∧ (getSQLCond (getSQLUpdate { emptyModel with
          Table := "t", Update := [("a", "1"), ("b", "2")],
          Cond := CondValue.flat [("id", "7"), ("n>", "3")] }).2).1 =
          " WHERE " ++ stringsJoin whereFrags " && "
      ∧ setFrags[0]? = some "\"a\"=$1" ∧ setFrags[1]? = some "\"b\"=$2"
      ∧ whereFrags[0]? = some "id=$3" ∧ whereFrags[1]? = some "n> $4"
      ∧ (getSQLCond (getSQLUpdate { emptyModel with
          Table := "t", Update := [("a", "1"), ("b", "2")],
          Cond := CondValue.flat [("id", "7"), ("n>", "3")] }).2).2.Scan =
          [Any.str "1", Any.str "2", Any.str "7", Any.str "3"] := by
  obtain ⟨sf, wf, h1, h2, h3, h4, h5, -⟩ :=
    update_then_cond_numbering
      { emptyModel with
        Table := "t", Update := [("a", "1"), ("b", "2")],
        Cond := CondValue.flat [("id", "7"), ("n>", "3")] }
      [("id", "7"), ("n>", "3")] (Or.inl rfl) (by decide) (by decide)
  exact ⟨sf, wf, h1, h2.trans (by rfl), (h3 0).trans (by rfl), (h3 1).trans (by rfl),
    (h4 0).trans (by rfl), (h4 1).trans (by rfl), h5.trans (by rfl)⟩

theorem receiverAfter_of_return (d : Driver) (m m1 : Model) (op : TerminalOp)
    (h : modelAfter d m op = some m1) : receiverAfter d m op = m1 := by
  simp [receiverAfter, h]

/-- C5: two terminal operations after which the model is not reset. A select on table t
filtered by id, answered successfully with a row whose price column is a struct other than
a timestamp, panics in the decoder: nothing is returned and the model keeps its table, its
condition, the bound value and the cursor 2. A batch insert on table t with no rows panics
on the first row: nothing is returned and the model is left as it was, table included. -/
theorem panic_leaves_model_unreset :
    modelAfter
        (replyDriver (QueryReply.rows ["id", "price"]
          [RowScan.ok [Scanned.text "7", Scanned.struct 0]]))
        { emptyModel with Table := "t", Cond := CondValue.flat [("id", "7")] }
        TerminalOp.execSelect = none
      ∧ receiverAfter
        (replyDriver (QueryReply.rows ["id", "price"]
          [RowScan.ok [Scanned.text "7", Scanned.struct 0]]))
        { emptyModel with Table := "t", Cond := CondValue.flat [("id", "7")] }
        TerminalOp.execSelect =
        { emptyModel with
          Table := "t", Cond := CondValue.flat [("id", "7")], Scan := [Any.str "7"],
          ParamsIndex := 2 }
      ∧ ¬ IsReset (receiverAfter
        (replyDriver (QueryReply.rows ["id", "price"]
          [RowScan.ok [Scanned.text "7", Scanned.struct 0]]))
        { emptyModel with Table := "t", Cond := CondValue.flat [("id", "7")] }
        TerminalOp.execSelect)
      ∧ modelAfter probeDriver { emptyModel with Table := "t" } TerminalOp.execInsertBatch = none
      ∧ receiverAfter probeDriver { emptyModel with Table := "t" } TerminalOp.execInsertBatch =
        { emptyModel with Table := "t" }
      ∧ ¬ IsReset (receiverAfter probeDriver { emptyModel with Table := "t" }
        TerminalOp.execInsertBatch) := by
  refine ⟨by rfl, by rfl, ?_, by rfl, by rfl, ?_⟩
  · intro h
    exact absurd h.1 (by decide)
  · intro h
    exact absurd h.2.2.2.2.2.2.2.2.2.2.1 (by decide)

/-- C18: a row whose mac column holds a slice of uint8 elements of a named type. The type
assertion to []byte panics: the decoder yields nothing for the column and for the row, and
query returns nothing at all, rather than the bytes as text. The same bytes held as a
[]byte are written as text. -/
theorem named_byte_slice_panics :
    decodeCell [("id", "1")] "mac" (Scanned.namedBytes "ab") = none
      ∧ decodeRow [("id", Scanned.text "1"), ("mac", Scanned.namedBytes "ab")] [] = none
      ∧ query
          (replyDriver (QueryReply.rows ["id", "mac"]
            [RowScan.ok [Scanned.text "1", Scanned.namedBytes "ab"]]))
          emptyModel "SELECT * FROM t;" = none
      ∧ decodeRow [("id", Scanned.text "1"), ("mac", Scanned.bytes "ab")] [] =
        some [("id", "1"), ("mac", "ab")] := by
  refine ⟨by rfl, by rfl, by rfl, by rfl⟩

end QesyPgSql
